import Mathlib

/-!
# Connection pool (`sql/connectionpool.go`)

A shallow embedding of the pool controller: the configuration, the weighted
semaphore used as admission gate, the buffered channel used as idle registry,
the counters, and the operations `New`, `GetConnection`, `Release`, `Close`,
the read accessors and one cycle of the loop in `trackIdleConnections`.

Modelling conventions.

* Every operation is run to completion without interference from other
  goroutines; the mutex `mu` is therefore not represented. The one exception
  is the statement-level model of the reaper cycle (`reaperStep`), where the
  lock-free channel operations of callers can be scheduled between the
  reaper's statements.
* `*Connection` values are natural numbers, addresses into an explicit heap:
  `0` is `nil`, `a + 1` is the cell at index `a`.
* `time.Now()` is a parameter `now` (nanoseconds); `time.Since t` is `now - t`.
* Go `int`, `int64` and `time.Duration` values are unbounded integers: the
  wrap-around at `2^63` is not represented.
* A call either returns, parks its goroutine forever, or panics; the state
  component of a result is the state at that point, deferred calls included.
* `closeCalls` is a ghost log of the receivers of `Connection.Close`.
* The semaphore and the channel follow the documented behaviour of
  `golang.org/x/sync/semaphore` and of Go channels: `Release` of more than is
  held panics, a receive from a closed and drained channel yields `nil`, a
  send on a closed channel panics, closing a closed channel panics.
-/

namespace ConnPool

/-- The struct `Connection`. -/
structure Connection where
  Id : Int
  lastUsed : Int
deriving DecidableEq, Repr

/-- The struct `PoolConfig`; durations are in nanoseconds. -/
structure PoolConfig where
  MinSize : Int
  MaxSize : Int
  IdleTimeout : Int
  ConnectTimout : Int
deriving DecidableEq, Repr

/-- The two errors a `context.Context` reports. -/
inductive CtxErr where
  | Canceled
  | DeadlineExceeded
deriving DecidableEq, Repr

/-- A caller's context as one call observes it: `err` is `ctx.Err()` when the
call starts, `later` is the error with which the context becomes done while
the call is parked on a blocking operation (`none`: it never does). -/
structure Context where
  err : Option CtxErr
  later : Option CtxErr
deriving DecidableEq, Repr

/-- The error a receive from `ctx.Done()` eventually yields, if any. -/
def Context.doneErr (ctx : Context) : Option CtxErr :=
  match ctx.err with
  | some e => some e
  | none => ctx.later

/-- The contexts `context.TODO()` and `context.Background()`: never done. -/
def Context.TODO : Context := { err := none, later := none }

/-- The value of `c.Err()` for `c, _ := context.WithTimeout(ctx, d)` observed
right after its creation: the parent's error if the parent is done, `DeadlineExceeded` if
`d <= 0`, and no error otherwise. -/
def WithTimeoutErr (ctx : Context) (d : Int) : Option CtxErr :=
  match ctx.err with
  | some e => some e
  | none => if d ≤ 0 then some .DeadlineExceeded else none

/-- Errors returned by the pool. -/
inductive PoolError where
  /-- Wraps with "connectionpool: could not get connection". -/
  | couldNotGet (cause : CtxErr)
  /-- Wraps with "connectionpool: could not acquire new connection". -/
  | couldNotAcquire (cause : CtxErr)
  /-- A bare `ctx.Err()`. -/
  | ctxErr (cause : CtxErr)
deriving DecidableEq, Repr

/-- Run-time panics the operations can raise. -/
inductive Panic where
  /-- Nil pointer dereference. -/
  | nilDeref
  /-- Send on closed channel. -/
  | sendOnClosed
  /-- Close of closed channel. -/
  | closeOfClosed
  /-- The semaphore's "released more than held". -/
  | semReleasedMoreThanHeld
  /-- Size out of range in `make(chan ...)`. -/
  | makechanSize
deriving DecidableEq, Repr

/-- How a call ends: it returns `a`, parks forever, or panics. -/
inductive Res (α : Type) where
  | ret (a : α)
  | blocked
  | panic (p : Panic)
deriving DecidableEq, Repr

/-- State of `semaphore.Weighted`: `size` permits exist, `cur` are held. -/
structure Weighted where
  size : Int
  cur : Int
deriving DecidableEq, Repr

/-- State of `chan *Connection`: capacity, buffered values (front first),
closed flag. -/
structure Chan where
  cap : Nat
  buf : List Nat
  closed : Bool
deriving DecidableEq, Repr

/-- The struct `ConnectionPool` (without `mu`). -/
structure ConnectionPool where
  conf : PoolConfig
  sem : Weighted
  idleConns : Chan
  activeConns : Int
  execCount : Int
  pendingConnections : Int
  execDuration : Int
deriving DecidableEq, Repr

/-- A pool together with the heap of connections and the ghost close log. -/
structure State where
  pool : ConnectionPool
  heap : List Connection
  closeCalls : List Nat
deriving DecidableEq, Repr

/-- Dereference a pointer; `none` is the nil-dereference panic. -/
def deref (heap : List Connection) (p : Nat) : Option Connection :=
  match p with
  | 0 => none
  | a + 1 => heap[a]?

/-- The constructor `semaphore.NewWeighted(n)`. -/
def NewWeighted (n : Int) : Weighted := { size := n, cur := 0 }

/-- The call `sem.Acquire(ctx, 1)`: takes a permit when one is free, otherwise
waits for the context (releases that would wake it are other goroutines'
and not part of a call run to completion). With `size < 1` no permit is ever
free and the call waits for the context only. -/
def Weighted.Acquire (s : Weighted) (ctx : Context) : Weighted × Res (Option CtxErr) :=
  if 1 ≤ s.size - s.cur then ({ s with cur := s.cur + 1 }, .ret none)
  else
    match ctx.doneErr with
    | some e => (s, .ret (some e))
    | none => (s, .blocked)

/-- The call `sem.Release(1)`: decrements `cur` and panics when it becomes negative. -/
def Weighted.Release (s : Weighted) : Weighted × Option Panic :=
  let s1 := { s with cur := s.cur - 1 }
  if s1.cur < 0 then (s1, some .semReleasedMoreThanHeld) else (s1, none)

/-- The length `len(ch)`. -/
def Chan.len (ch : Chan) : Nat := ch.buf.length

/-- A receive that can proceed without blocking: the front of the buffer, or
`nil` from a closed and drained channel; `none` when it would block. -/
def Chan.tryRecv (ch : Chan) : Option (Nat × Chan) :=
  match ch.buf with
  | v :: rest => some (v, { ch with buf := rest })
  | [] => if ch.closed then some (0, ch) else none

/-- A send that does not wait: panics on a closed channel, appends when there
is room, and reports `none` when it would block. -/
def Chan.trySend (ch : Chan) (v : Nat) : Res (Option Chan) :=
  if ch.closed then .panic .sendOnClosed
  else if ch.buf.length < ch.cap then .ret (some { ch with buf := ch.buf ++ [v] })
  else .ret none

/-- The method `Connection.Close`: the stub returns `nil`. -/
def Connection.Close (_c : Nat) : Option PoolError := none

/-- The constructor `New`: builds the semaphore and the channel; `make` panics on a negative
capacity. The reaper it starts is represented by `trackIdleConnections`. -/
def New (config : PoolConfig) : Res State :=
  if config.MinSize < 0 then .panic .makechanSize
  else .ret
    { pool :=
        { conf := config
          sem := NewWeighted config.MaxSize
          idleConns := { cap := config.MinSize.toNat, buf := [], closed := false }
          activeConns := 0
          execCount := 0
          pendingConnections := 0
          execDuration := 0 }
      heap := []
      closeCalls := [] }

/-- Lines 81-86 and 96-100: count the handle as active, stamp it, return it. -/
def checkout (s : State) (conn : Nat) (now : Int) : State × Res (Nat × Option PoolError) :=
  let s1 := { s with pool := { s.pool with activeConns := s.pool.activeConns + 1 } }
  match conn with
  | 0 => (s1, .panic .nilDeref)
  | a + 1 =>
    match s1.heap[a]? with
    | none => (s1, .panic .nilDeref)
    | some c => ({ s1 with heap := s1.heap.set a { c with lastUsed := now } }, .ret (conn, none))

/-- Lines 103-111: allocate a connection with `Id = activeConns + 1`. -/
def mint (s : State) (now : Int) : State × Res (Nat × Option PoolError) :=
  let conn : Connection := { Id := s.pool.activeConns + 1, lastUsed := now }
  ({ s with
      pool := { s.pool with activeConns := s.pool.activeConns + 1 }
      heap := s.heap ++ [conn] },
   .ret (s.heap.length + 1, none))

/-- Lines 90-102: at capacity, wait for the context or for an idle handle.
This point is reached only when the receive of lines 78-88 would block, so
without interference the registry is empty and open here and the two cases of
the `select` are never ready together. -/
def waitIdle (s : State) (ctx : Context) (now : Int) : State × Res (Nat × Option PoolError) :=
  match s.pool.idleConns.tryRecv with
  | some (conn, ch) => checkout { s with pool := { s.pool with idleConns := ch } } conn now
  | none =>
    match ctx.doneErr with
    | some e =>
      match s.pool.sem.Release with
      | (sem1, some pn) => ({ s with pool := { s.pool with sem := sem1 } }, .panic pn)
      | (sem1, none) => ({ s with pool := { s.pool with sem := sem1 } }, .ret (0, some (.ctxErr e)))
    | none => (s, .blocked)

/-- The method `ConnectionPool.GetConnection`. -/
def GetConnection (s : State) (ctx : Context) (now : Int) : State × Res (Nat × Option PoolError) :=
  let s0 := { s with pool := { s.pool with pendingConnections := s.pool.pendingConnections + 1 } }
  match ctx.err with
  | some e => (s0, .ret (0, some (.couldNotGet e)))
  | none =>
    match WithTimeoutErr ctx s0.pool.conf.ConnectTimout with
    | some e => (s0, .ret (0, some (.couldNotGet e)))
    | none =>
      match s0.pool.sem.Acquire ctx with
      | (_, .blocked) => (s0, .blocked)
      | (_, .panic pn) => (s0, .panic pn)
      | (sem1, .ret err) =>
        let s1 := { s0 with pool := { s0.pool with
                      sem := sem1, pendingConnections := s0.pool.pendingConnections - 1 } }
        match err with
        | some e => (s1, .ret (0, some (.couldNotAcquire e)))
        | none =>
          match s1.pool.idleConns.tryRecv with
          | some (conn, ch) => checkout { s1 with pool := { s1.pool with idleConns := ch } } conn now
          | none =>
            if s1.pool.activeConns ≥ s1.pool.conf.MaxSize then waitIdle s1 ctx now
            else mint s1 now

/-- The deferred `p.sem.Release(1)` of `Release`: runs after the body, also
when the body panicked; a panic of its own replaces the body's result. -/
def deferSemRelease (r : State × Res (Option PoolError)) : State × Res (Option PoolError) :=
  match r.1.pool.sem.Release with
  | (sem1, some pn) => ({ r.1 with pool := { r.1.pool with sem := sem1 } }, .panic pn)
  | (sem1, none) => ({ r.1 with pool := { r.1.pool with sem := sem1 } }, r.2)

/-- Lines 120-131 of `Release`, before the deferred call. The duration added
at line 123 is the plain difference `now - lastUsed` and the sum is exact: this
is what the code computes whenever both fit an `int64` (see `fitsInt64`), as
they do for a handle stamped by `time.Now()`. Outside that range Go's
`time.Since` saturates and `+=` wraps, which is not represented. -/
def releaseBody (s : State) (conn : Nat) (now : Int) : State × Res (Option PoolError) :=
  let s1 := { s with pool := { s.pool with
                activeConns := s.pool.activeConns - 1, execCount := s.pool.execCount + 1 } }
  match deref s1.heap conn with
  | none => (s1, .panic .nilDeref)
  | some c =>
    let s2 := { s1 with pool := { s1.pool with
                  execDuration := s1.pool.execDuration + (now - c.lastUsed) } }
    match s2.pool.idleConns.trySend conn with
    | .panic pn => (s2, .panic pn)
    | .blocked => (s2, .blocked)
    | .ret (some ch) => ({ s2 with pool := { s2.pool with idleConns := ch } }, .ret none)
    | .ret none => ({ s2 with closeCalls := s2.closeCalls ++ [conn] }, .ret (Connection.Close conn))

/-- The method `ConnectionPool.Release`. -/
def Release (s : State) (conn : Nat) (now : Int) : State × Res (Option PoolError) :=
  deferSemRelease (releaseBody s conn now)

/-- The `range` loop of `Close` over the buffered handles of the now closed
channel: close each one, return the first error. -/
def closeLoop (s : State) : List Nat → State × Res (Option PoolError)
  | [] => ({ s with pool := { s.pool with idleConns := { s.pool.idleConns with buf := [] } } },
           .ret none)
  | conn :: rest =>
    let s1 := { s with
                  pool := { s.pool with idleConns := { s.pool.idleConns with buf := rest } }
                  closeCalls := s.closeCalls ++ [conn] }
    match Connection.Close conn with
    | some e => (s1, .ret (some e))
    | none => closeLoop s1 rest

/-- The method `ConnectionPool.Close`. -/
def Close (s : State) : State × Res (Option PoolError) :=
  if s.pool.idleConns.closed then (s, .panic .closeOfClosed)
  else
    let s1 := { s with pool := { s.pool with idleConns := { s.pool.idleConns with closed := true } } }
    closeLoop s1 s1.pool.idleConns.buf

/-- The method `ConnectionPool.ActiveConnections`. -/
def ActiveConnections (s : State) : Int := s.pool.activeConns

/-- The method `ConnectionPool.IdleConnections`. -/
def IdleConnections (s : State) : Int := (s.pool.idleConns.len : Int)

/-- The method `ConnectionPool.PendingConnections`. -/
def PendingConnections (s : State) : Int := s.pool.pendingConnections

/-- The method `ConnectionPool.ExecutionAverage`: Go's `/` truncates toward zero. -/
def ExecutionAverage (s : State) : Int :=
  if s.pool.execCount = 0 then 0 else s.pool.execDuration.tdiv s.pool.execCount

/-- The inner `for i := 0; i < len(p.idleConns); i++` loop of
`trackIdleConnections`, started at index `i`. `len` is read again at every
iteration. `none` means the fuel ran out before the loop condition failed. -/
def sweepLoop (now : Int) : Nat → Nat → State → Option (State × Res Unit)
  | fuel, i, s =>
    if i < s.pool.idleConns.len then
      match fuel with
      | 0 => none
      | fuel + 1 =>
        match s.pool.idleConns.tryRecv with
        | none => some (s, .blocked)
        | some (conn, ch) =>
          let s1 := { s with pool := { s.pool with idleConns := ch } }
          match deref s1.heap conn with
          | none => some (s1, .panic .nilDeref)
          | some c =>
            if now - c.lastUsed > s1.pool.conf.IdleTimeout then
              sweepLoop now fuel (i + 1) { s1 with closeCalls := s1.closeCalls ++ [conn] }
            else
              match s1.pool.idleConns.trySend conn with
              | .panic pn => some (s1, .panic pn)
              | .blocked => some (s1, .blocked)
              | .ret none => some (s1, .blocked)
              | .ret (some ch1) =>
                sweepLoop now fuel (i + 1) { s1 with pool := { s1.pool with idleConns := ch1 } }
    else some (s, .ret ())

/-- One cycle of the outer loop of `trackIdleConnections` at time `now`. -/
def trackIdleConnections (s : State) (now : Int) : Option (State × Res Unit) :=
  sweepLoop now s.pool.idleConns.len 0 s

/-- Free permits of the admission gate: `size - cur`. -/
def permitsAvailable (s : State) : Int := s.pool.sem.size - s.pool.sem.cur

/-- A call made on the pool by some goroutine. -/
inductive Call where
  | get (ctx : Context) (now : Int)
  | release (conn : Nat) (now : Int)
  | sweep (now : Int)
deriving DecidableEq, Repr

/-- A pool in use: its state and, as ghost data, the handles that callers
currently hold (checked out and not yet released). -/
structure Sys where
  st : State
  out : List Nat
deriving DecidableEq, Repr

/-- One call under well-formed use. `Release` is accepted only for a handle
that is currently checked out and consumes that checkout. A `GetConnection`
that parks leaves the state it parked in. `none`: the call breaks the usage
contract, or the process panicked. -/
def Sys.step (y : Sys) : Call → Option Sys
  | .get ctx now =>
    match GetConnection y.st ctx now with
    | (s1, .ret (conn, none)) => some { st := s1, out := conn :: y.out }
    | (s1, .ret (_, some _)) => some { st := s1, out := y.out }
    | (s1, .blocked) => some { st := s1, out := y.out }
    | (_, .panic _) => none
  | .release conn now =>
    if conn ∈ y.out then
      match Release y.st conn now with
      | (s1, .ret _) => some { st := s1, out := y.out.erase conn }
      | _ => none
    else none
  | .sweep now =>
    match trackIdleConnections y.st now with
    | some (s1, .ret _) => some { st := s1, out := y.out }
    | _ => none

/-- A finite sequence of calls under well-formed use. -/
def Sys.run (y : Sys) : List Call → Option Sys
  | [] => some y
  | c :: cs =>
    match y.step c with
    | some y1 => y1.run cs
    | none => none

/-- The pool invariant under well-formed use, for a pool built from `config`. -/
structure Inv (config : PoolConfig) (y : Sys) : Prop where
  conf_eq : y.st.pool.conf = config
  open_ : y.st.pool.idleConns.closed = false
  size_eq : y.st.pool.sem.size = config.MaxSize
  cap_eq : (y.st.pool.idleConns.cap : Int) = config.MinSize
  active_eq : y.st.pool.activeConns = (y.out.length : Int)
  cur_eq : y.st.pool.sem.cur = y.st.pool.activeConns
  cur_le : y.st.pool.sem.cur ≤ max config.MaxSize 0
  len_le : y.st.pool.idleConns.buf.length ≤ y.st.pool.idleConns.cap
  valid : ∀ p ∈ y.out ++ y.st.pool.idleConns.buf, 0 < p ∧ p ≤ y.st.heap.length
  nodup : (y.out ++ y.st.pool.idleConns.buf).Nodup

/-- The state after `p.pendingConnections++`. -/
def pendingInc (s : State) : State :=
  { s with pool := { s.pool with pendingConnections := s.pool.pendingConnections + 1 } }

/-- The state once a permit is taken and the pending count is back to its
value before the call. -/
def permitTaken (s : State) : State :=
  { s with pool := { s.pool with sem := { s.pool.sem with cur := s.pool.sem.cur + 1 } } }

/-- The state with the buffer of the idle registry replaced by `buf` and the
handles `closed` appended to the close log. -/
def withIdle (s : State) (buf : List Nat) (closed : List Nat) : State :=
  { s with
      pool := { s.pool with idleConns := { s.pool.idleConns with buf := buf } }
      closeCalls := s.closeCalls ++ closed }

/-- The handle `p` has rested longer than `IdleTimeout` at time `now`. -/
def expired (s : State) (now : Int) (p : Nat) : Prop :=
  ∃ c, deref s.heap p = some c ∧ now - c.lastUsed > s.pool.conf.IdleTimeout

/-- The counters after the accounting step of `Release` for a handle last
used at `lastUsed`, with the permit returned. -/
def released (p : ConnectionPool) (now lastUsed : Int) : ConnectionPool :=
  { p with
      sem := { p.sem with cur := p.sem.cur - 1 }
      activeConns := p.activeConns - 1
      execCount := p.execCount + 1
      execDuration := p.execDuration + (now - lastUsed) }

/-- Whether a call is a `Release`. -/
def Call.isRelease : Call → Bool
  | .release _ _ => true
  | _ => false

/-- The durations `time.Since(conn.lastUsed)` measured by the `Release` calls
of a run under well-formed use, in order (ghost). -/
def Sys.durations (y : Sys) : List Call → List Int
  | [] => []
  | c :: cs =>
    match y.step c with
    | none => []
    | some y1 =>
      match c with
      | .release conn now =>
        match deref y.st.heap conn with
        | some k => (now - k.lastUsed) :: y1.durations cs
        | none => y1.durations cs
      | _ => y1.durations cs

/-- One call with no assumption on how callers use the pool: any handle may
be passed to `Release`. A call that parks leaves the state it parked in.
`none`: the process panicked. -/
def State.step (s : State) : Call → Option State
  | .get ctx now =>
    match GetConnection s ctx now with
    | (_, .panic _) => none
    | (s1, _) => some s1
  | .release conn now =>
    match Release s conn now with
    | (_, .panic _) => none
    | (s1, _) => some s1
  | .sweep now =>
    match trackIdleConnections s now with
    | some (_, .panic _) => none
    | some (s1, _) => some s1
    | none => none

/-- A finite sequence of calls with no assumption on how callers use the
pool. -/
def State.run (s : State) : List Call → Option State
  | [] => some s
  | c :: cs =>
    match s.step c with
    | some s1 => s1.run cs
    | none => none

/-- The state one sweep cycle at time `now` leaves (the state itself when the
cycle does not produce one). -/
def sweep (s : State) (now : Int) : State :=
  match trackIdleConnections s now with
  | some (s1, _) => s1
  | none => s

/-- The range of `int64`, hence of `time.Duration`: where the model's
unbounded arithmetic on durations is the code's. -/
def fitsInt64 (x : Int) : Prop := -9223372036854775808 ≤ x ∧ x ≤ 9223372036854775807

/-! ### One reaper cycle, statement by statement

The cycle of `trackIdleConnections` holds `mu` from line 179 to line 189.
Callers touch the channel without `mu`: the receive of line 80 comes before
the `p.mu.Lock()` of line 81, and the send of line 127 comes after the
`p.mu.Unlock()` of line 124. The definitions below split the cycle at its
channel operations so that those two caller operations can be scheduled in
between. -/

/-- Program points of one reaper cycle; `mu` is held at every point but
`done`. -/
inductive ReaperPc where
  /-- Line 180, before the test `i < len(p.idleConns)`. -/
  | guard (i : Nat)
  /-- Line 181, before `conn := <-p.idleConns`. -/
  | recv (i : Nat)
  /-- Line 182, before the test of `time.Since(conn.lastUsed)`. -/
  | test (i : Nat) (conn : Nat)
  /-- Line 187, before `p.idleConns <- conn`. -/
  | send (i : Nat) (conn : Nat)
  /-- After line 189: the loop is over and `mu` is released. -/
  | done
deriving DecidableEq, Repr

/-- Whether the reaper holds `mu` at a program point. -/
def ReaperPc.holdsMu : ReaperPc → Bool
  | .done => false
  | _ => true

/-- The pool together with the program point of the reaper. -/
structure Conc where
  st : State
  pc : ReaperPc
deriving DecidableEq, Repr

/-- One statement of the reaper at time `now`. `.blocked`: the channel
operation at the current point cannot proceed and the reaper parks there. -/
def reaperStep (now : Int) (c : Conc) : Res Conc :=
  match c.pc with
  | .guard i =>
    if i < c.st.pool.idleConns.len then .ret { c with pc := .recv i }
    else .ret { c with pc := .done }
  | .recv i =>
    match c.st.pool.idleConns.tryRecv with
    | none => .blocked
    | some (conn, ch) =>
      .ret { st := { c.st with pool := { c.st.pool with idleConns := ch } }, pc := .test i conn }
  | .test i conn =>
    match deref c.st.heap conn with
    | none => .panic .nilDeref
    | some k =>
      if now - k.lastUsed > c.st.pool.conf.IdleTimeout then
        .ret { st := { c.st with closeCalls := c.st.closeCalls ++ [conn] }, pc := .guard (i + 1) }
      else .ret { c with pc := .send i conn }
  | .send i conn =>
    match c.st.pool.idleConns.trySend conn with
    | .panic pn => .panic pn
    | .blocked => .blocked
    | .ret none => .blocked
    | .ret (some ch) =>
      .ret { st := { c.st with pool := { c.st.pool with idleConns := ch } }, pc := .guard (i + 1) }
  | .done => .ret c

/-- The reaper run alone for at most `n` statements; `none` when `n` does not
suffice. The result is in the format of `sweepLoop`. -/
def reaperRun (now : Int) : Nat → Conc → Option (State × Res Unit)
  | 0, _ => none
  | n + 1, c =>
    match c.pc with
    | .done => some (c.st, .ret ())
    | _ =>
      match reaperStep now c with
      | .ret c1 => reaperRun now n c1
      | .blocked => some (c.st, .blocked)
      | .panic pn => some (c.st, .panic pn)

/-- The receive of line 80, executed by a caller that is past line 71 and
holds a permit; it does not need `mu`. Returns the handle taken, if any. -/
def callerRecv (c : Conc) : Conc × Option Nat :=
  match c.st.pool.idleConns.tryRecv with
  | some (conn, ch) =>
    ({ c with st := { c.st with pool := { c.st.pool with idleConns := ch } } }, some conn)
  | none => (c, none)

/-- The `select` of lines 126-131, executed by a `Release conn` that is past
line 124; it does not need `mu`. -/
def callerSend (c : Conc) (conn : Nat) : Res Conc :=
  match c.st.pool.idleConns.trySend conn with
  | .panic pn => .panic pn
  | .blocked => .blocked
  | .ret (some ch) => .ret { c with st := { c.st with pool := { c.st.pool with idleConns := ch } } }
  | .ret none => .ret { c with st := { c.st with closeCalls := c.st.closeCalls ++ [conn] } }

/-- A configuration used in worked examples: at most one idle handle, at most
two handles checked out, idle timeout 100ns, connect timeout 5ns. -/
def exampleConfig : PoolConfig :=
  { MinSize := 1, MaxSize := 2, IdleTimeout := 100, ConnectTimout := 5 }

/-- The pool `New exampleConfig` returns. -/
def exampleStart : State :=
  { pool :=
      { conf := exampleConfig
        sem := { size := 2, cur := 0 }
        idleConns := { cap := 1, buf := [], closed := false }
        activeConns := 0
        execCount := 0
        pendingConnections := 0
        execDuration := 0 }
    heap := []
    closeCalls := [] }

/-- A well-formed sequence of calls: two checkouts, a release, a reuse, a
second release and a sweep that reaps the handle left idle. -/
def exampleCalls : List Call :=
  [.get Context.TODO 0, .get Context.TODO 1, .release 1 10, .get Context.TODO 11,
   .release 2 20, .sweep 200]

/-- A pool state whose idle registry holds two handles, both last used at
time 0. -/
def twoIdle : State :=
  { pool :=
      { conf := { MinSize := 2, MaxSize := 2, IdleTimeout := 10, ConnectTimout := 5 }
        sem := { size := 2, cur := 0 }
        idleConns := { cap := 2, buf := [1, 2], closed := false }
        activeConns := 0
        execCount := 2
        pendingConnections := 0
        execDuration := 0 }
    heap := [{ Id := 1, lastUsed := 0 }, { Id := 2, lastUsed := 0 }]
    closeCalls := [] }

/-- The state `exampleCalls` leads to from `exampleStart`: handle 1 is
checked out, handle 2 was reaped. -/
def exampleEnd : Sys :=
  { st :=
      { pool :=
          { conf := exampleConfig
            sem := { size := 2, cur := 1 }
            idleConns := { cap := 1, buf := [], closed := false }
            activeConns := 1
            execCount := 2
            pendingConnections := 0
            execDuration := 29 }
        heap := [{ Id := 1, lastUsed := 11 }, { Id := 2, lastUsed := 1 }]
        closeCalls := [2] }
    out := [1] }

/-- A pool state with handle 1 checked out and handle 2 resting in the idle
registry. -/
def oneIdle : State :=
  { pool :=
      { conf := exampleConfig
        sem := { size := 2, cur := 1 }
        idleConns := { cap := 1, buf := [2], closed := false }
        activeConns := 1
        execCount := 1
        pendingConnections := 0
        execDuration := 7 }
    heap := [{ Id := 1, lastUsed := 3 }, { Id := 2, lastUsed := 1 }]
    closeCalls := [] }

/-- A pool state with handle 1 checked out and an empty idle registry. -/
def oneOut : State :=
  { pool :=
      { conf := exampleConfig
        sem := { size := 2, cur := 1 }
        idleConns := { cap := 1, buf := [], closed := false }
        activeConns := 1
        execCount := 0
        pendingConnections := 0
        execDuration := 0 }
    heap := [{ Id := 1, lastUsed := 3 }]
    closeCalls := [] }

/-- The configuration of `twoIdle`. -/
def twoIdleConfig : PoolConfig :=
  { MinSize := 2, MaxSize := 2, IdleTimeout := 10, ConnectTimout := 5 }

/-- The pool `New twoIdleConfig` returns. -/
def twoIdleStart : State :=
  { pool :=
      { conf := twoIdleConfig
        sem := { size := 2, cur := 0 }
        idleConns := { cap := 2, buf := [], closed := false }
        activeConns := 0
        execCount := 0
        pendingConnections := 0
        execDuration := 0 }
    heap := []
    closeCalls := [] }

/-- Two checkouts and two releases, all at time 0: they lead from
`twoIdleStart` to `twoIdle`. -/
def twoIdleCalls : List Call :=
  [.get Context.TODO 0, .get Context.TODO 0, .release 1 0, .release 2 0]

/-- A context that is already cancelled when the call starts. -/
def cancelledCtx : Context := { err := some .Canceled, later := none }

/-- The state `New` returns for `exampleConfig` with `ConnectTimout = 0`. -/
def zeroTimeoutStart : State :=
  { exampleStart with pool := { exampleStart.pool with
      conf := { exampleConfig with ConnectTimout := 0 } } }

/-- A configuration with `MinSize = 0`: the idle registry has no room. -/
def noIdleConfig : PoolConfig :=
  { MinSize := 0, MaxSize := 2, IdleTimeout := 100, ConnectTimout := 5 }

/-- The pool `New noIdleConfig` returns. -/
def noIdleStart : State :=
  { pool :=
      { conf := noIdleConfig
        sem := { size := 2, cur := 0 }
        idleConns := { cap := 0, buf := [], closed := false }
        activeConns := 0
        execCount := 0
        pendingConnections := 0
        execDuration := 0 }
    heap := []
    closeCalls := [] }

/-- Two checkouts, a release and a sweep. -/
def noIdleCalls : List Call :=
  [.get Context.TODO 0, .get Context.TODO 1, .release 1 5, .sweep 50]

/-- The state `noIdleCalls` leads to from `noIdleStart`: handle 1 was closed
on release, handle 2 is checked out. -/
def noIdleEnd : State :=
  { pool :=
      { conf := noIdleConfig
        sem := { size := 2, cur := 1 }
        idleConns := { cap := 0, buf := [], closed := false }
        activeConns := 1
        execCount := 1
        pendingConnections := 0
        execDuration := 5 }
    heap := [{ Id := 1, lastUsed := 0 }, { Id := 2, lastUsed := 1 }]
    closeCalls := [1] }

/-- The state `Close` leaves when called on `oneOut`. -/
def oneOutClosed : State :=
  { oneOut with pool := { oneOut.pool with idleConns := { cap := 1, buf := [], closed := true } } }

/-- Two checkouts, then a release of handle 1. -/
def releaseOnceCalls : List Call :=
  [.get Context.TODO 0, .get Context.TODO 1, .release 1 5]

/-- The state `releaseOnceCalls` leads to from `exampleStart`: handle 2 is
checked out, handle 1 rests in the idle registry. -/
def releasedOnce : State :=
  { pool :=
      { conf := exampleConfig
        sem := { size := 2, cur := 1 }
        idleConns := { cap := 1, buf := [1], closed := false }
        activeConns := 1
        execCount := 1
        pendingConnections := 0
        execDuration := 5 }
    heap := [{ Id := 1, lastUsed := 0 }, { Id := 2, lastUsed := 1 }]
    closeCalls := [] }

/-- The state after handle 1 is released a second time, at time 6, in
`releasedOnce`. -/
def releasedTwice : State :=
  { pool :=
      { conf := exampleConfig
        sem := { size := 2, cur := 0 }
        idleConns := { cap := 1, buf := [1], closed := false }
        activeConns := 0
        execCount := 2
        pendingConnections := 0
        execDuration := 11 }
    heap := [{ Id := 1, lastUsed := 0 }, { Id := 2, lastUsed := 1 }]
    closeCalls := [1] }

/-- With `MinSize = 0` and `MaxSize = 2`: acquire A, acquire B, release A,
acquire C. -/
def dupCalls : List Call :=
  [.get Context.TODO 0, .get Context.TODO 1, .release 1 5, .get Context.TODO 6]

/-- The state `dupCalls` leads to from `noIdleStart`: handles 2 (B) and 3 (C)
are checked out. -/
def dupEnd : Sys :=
  { st :=
      { pool :=
          { conf := noIdleConfig
            sem := { size := 2, cur := 2 }
            idleConns := { cap := 0, buf := [], closed := false }
            activeConns := 2
            execCount := 1
            pendingConnections := 0
            execDuration := 5 }
        heap := [{ Id := 1, lastUsed := 0 }, { Id := 2, lastUsed := 1 }, { Id := 2, lastUsed := 6 }]
        closeCalls := [1] }
    out := [3, 2] }

/-- The state `oneIdle` with `ConnectTimout = 0`: a permit is free and handle
2 rests in the idle registry. -/
def zeroTimeoutIdle : State :=
  { oneIdle with pool := { oneIdle.pool with conf := { exampleConfig with ConnectTimout := 0 } } }

/-- A pool state with both permits held: handles 1 and 2 are checked out. -/
def fullPool : State :=
  { pool :=
      { conf := exampleConfig
        sem := { size := 2, cur := 2 }
        idleConns := { cap := 1, buf := [], closed := false }
        activeConns := 2
        execCount := 0
        pendingConnections := 0
        execDuration := 0 }
    heap := [{ Id := 1, lastUsed := 0 }, { Id := 2, lastUsed := 1 }]
    closeCalls := [] }

/-- A live context whose deadline passes while the call waits. -/
def deadlineCtx : Context := { err := none, later := some .DeadlineExceeded }

/-- The state `releasedOnce` seen by a further caller of `GetConnection` that
is past line 71: it holds the second permit and is about to execute the
receive of line 80. -/
def callerAtLine78 : State := permitTaken releasedOnce

/-- The state `releasedOnce` seen by a `Release` of handle 2 at time 9 that is
past line 124: the counters are updated, the permit is still held, the send of
line 127 is next. -/
def releasingTwo : State :=
  { releasedOnce with pool := { released releasedOnce.pool 9 1 with
      sem := releasedOnce.pool.sem } }

/-- The state `oneOut` with, in addition, a connection the caller built itself
(`&Connection{Id: 7}`): its `lastUsed` is the zero `time.Time`, year 1, far
below any `time.Now()`. It is handle 2 and the pool never issued it. -/
def foreignHandle : State :=
  { oneOut with heap := oneOut.heap ++ [{ Id := 7, lastUsed := -62135596800000000000 }] }

/-! ## Execution paths of `GetConnection` -/

theorem GetConnection_cancelled (s : State) (ctx : Context) (now : Int) (e : CtxErr)
    (h : ctx.err = some e) :
    GetConnection s ctx now = (pendingInc s, .ret (0, some (.couldNotGet e))) := by
  simp [GetConnection, h, pendingInc]

theorem GetConnection_timeout (s : State) (ctx : Context) (now : Int)
    (h : ctx.err = none) (ht : s.pool.conf.ConnectTimout ≤ 0) :
    GetConnection s ctx now = (pendingInc s, .ret (0, some (.couldNotGet .DeadlineExceeded))) := by
  simp [GetConnection, h, pendingInc, WithTimeoutErr, ht]

theorem GetConnection_noPermit_fires (s : State) (ctx : Context) (now : Int) (e : CtxErr)
    (h : ctx.err = none) (ht : 0 < s.pool.conf.ConnectTimout)
    (hp : ¬ 1 ≤ s.pool.sem.size - s.pool.sem.cur) (hl : ctx.later = some e) :
    GetConnection s ctx now = (s, .ret (0, some (.couldNotAcquire e))) := by
  have ht' : ¬ s.pool.conf.ConnectTimout ≤ 0 := by omega
  simp [GetConnection, h, WithTimeoutErr, ht', Weighted.Acquire, hp, Context.doneErr, hl]

theorem GetConnection_noPermit_parks (s : State) (ctx : Context) (now : Int)
    (h : ctx.err = none) (ht : 0 < s.pool.conf.ConnectTimout)
    (hp : ¬ 1 ≤ s.pool.sem.size - s.pool.sem.cur) (hl : ctx.later = none) :
    GetConnection s ctx now = (pendingInc s, .blocked) := by
  have ht' : ¬ s.pool.conf.ConnectTimout ≤ 0 := by omega
  simp [GetConnection, h, WithTimeoutErr, ht', Weighted.Acquire, hp, Context.doneErr, hl,
    pendingInc]

theorem GetConnection_permit (s : State) (ctx : Context) (now : Int)
    (h : ctx.err = none) (ht : 0 < s.pool.conf.ConnectTimout)
    (hp : 1 ≤ s.pool.sem.size - s.pool.sem.cur) :
    GetConnection s ctx now =
      match (permitTaken s).pool.idleConns.tryRecv with
      | some (conn, ch) =>
        checkout { permitTaken s with pool := { (permitTaken s).pool with idleConns := ch } } conn now
      | none =>
        if (permitTaken s).pool.activeConns ≥ (permitTaken s).pool.conf.MaxSize then
          waitIdle (permitTaken s) ctx now
        else mint (permitTaken s) now := by
  have ht' : ¬ s.pool.conf.ConnectTimout ≤ 0 := by omega
  simp [GetConnection, h, WithTimeoutErr, ht', Weighted.Acquire, hp, permitTaken]

theorem GetConnection_reuse (s : State) (ctx : Context) (now : Int) (a : Nat)
    (rest : List Nat) (c : Connection)
    (h : ctx.err = none) (ht : 0 < s.pool.conf.ConnectTimout)
    (hp : 1 ≤ s.pool.sem.size - s.pool.sem.cur)
    (hb : s.pool.idleConns.buf = (a + 1) :: rest) (hc : s.heap[a]? = some c) :
    GetConnection s ctx now =
      ({ pool := { s.pool with
                    sem := { s.pool.sem with cur := s.pool.sem.cur + 1 }
                    idleConns := { s.pool.idleConns with buf := rest }
                    activeConns := s.pool.activeConns + 1 }
         heap := s.heap.set a { c with lastUsed := now }
         closeCalls := s.closeCalls }, .ret (a + 1, none)) := by
  rw [GetConnection_permit s ctx now h ht hp]
  simp [permitTaken, Chan.tryRecv, hb, checkout, hc]

theorem GetConnection_mint (s : State) (ctx : Context) (now : Int)
    (h : ctx.err = none) (ht : 0 < s.pool.conf.ConnectTimout)
    (hp : 1 ≤ s.pool.sem.size - s.pool.sem.cur)
    (hb : s.pool.idleConns.buf = []) (ho : s.pool.idleConns.closed = false)
    (ha : s.pool.activeConns < s.pool.conf.MaxSize) :
    GetConnection s ctx now =
      ({ pool := { s.pool with
                    sem := { s.pool.sem with cur := s.pool.sem.cur + 1 }
                    activeConns := s.pool.activeConns + 1 }
         heap := s.heap ++ [{ Id := s.pool.activeConns + 1, lastUsed := now }]
         closeCalls := s.closeCalls }, .ret (s.heap.length + 1, none)) := by
  rw [GetConnection_permit s ctx now h ht hp]
  have ha' : ¬ s.pool.conf.MaxSize ≤ s.pool.activeConns := by omega
  simp [permitTaken, Chan.tryRecv, hb, ho, mint, ha']

/-! ## Execution paths of `Release` -/

theorem Release_put (s : State) (conn : Nat) (now : Int) (c : Connection)
    (hc : deref s.heap conn = some c) (ho : s.pool.idleConns.closed = false)
    (hroom : s.pool.idleConns.buf.length < s.pool.idleConns.cap)
    (hcur : 1 ≤ s.pool.sem.cur) :
    Release s conn now =
      ({ s with pool := { released s.pool now c.lastUsed with
                           idleConns := { s.pool.idleConns with
                                            buf := s.pool.idleConns.buf ++ [conn] } } },
       .ret none) := by
  have hneg : ¬ s.pool.sem.cur - 1 < 0 := by omega
  simp [Release, releaseBody, hc, Chan.trySend, ho, hroom, deferSemRelease, Weighted.Release,
    hneg, released]

theorem Release_full (s : State) (conn : Nat) (now : Int) (c : Connection)
    (hc : deref s.heap conn = some c) (ho : s.pool.idleConns.closed = false)
    (hfull : ¬ s.pool.idleConns.buf.length < s.pool.idleConns.cap)
    (hcur : 1 ≤ s.pool.sem.cur) :
    Release s conn now =
      ({ s with pool := released s.pool now c.lastUsed
                closeCalls := s.closeCalls ++ [conn] },
       .ret none) := by
  have hneg : ¬ s.pool.sem.cur - 1 < 0 := by omega
  simp [Release, releaseBody, hc, Chan.trySend, ho, hfull, deferSemRelease, Weighted.Release,
    hneg, released, Connection.Close]

/-! ## The sweep loop -/

theorem withIdle_withIdle (s : State) (b1 r1 b2 r2 : List Nat) :
    withIdle (withIdle s b1 r1) b2 r2 = withIdle s b2 (r1 ++ r2) := by
  simp [withIdle]

theorem withIdle_self (s : State) : withIdle s s.pool.idleConns.buf [] = s := by
  simp [withIdle]

theorem sweepLoop_spec (now : Int) :
    ∀ (fuel i : Nat) (s : State),
      s.pool.idleConns.closed = false →
      (∀ p ∈ s.pool.idleConns.buf, 0 < p ∧ p ≤ s.heap.length) →
      s.pool.idleConns.buf.length ≤ s.pool.idleConns.cap →
      s.pool.idleConns.buf.length - i ≤ fuel →
      ∃ kept removed,
        sweepLoop now fuel i s = some (withIdle s kept removed, .ret ()) ∧
        (kept ++ removed).Perm s.pool.idleConns.buf ∧
        (∀ p ∈ removed, expired s now p) := by
  intro fuel
  induction fuel with
  | zero =>
    intro i s _ _ _ hfuel
    refine ⟨s.pool.idleConns.buf, [], ?_, by simp, by simp⟩
    have : ¬ i < s.pool.idleConns.len := by simp only [Chan.len]; omega
    rw [sweepLoop]
    simp [this, withIdle_self]
  | succ fuel ih =>
    intro i s ho hv hlen hfuel
    by_cases hi : i < s.pool.idleConns.len
    · rcases hb : s.pool.idleConns.buf with _ | ⟨v, rest⟩
      · simp [Chan.len, hb] at hi
      · have hvv : 0 < v ∧ v ≤ s.heap.length := hv v (by simp [hb])
        obtain ⟨hv0, hv1⟩ := hvv
        obtain ⟨a, rfl⟩ : ∃ a, v = a + 1 := ⟨v - 1, by omega⟩
        have ha : a < s.heap.length := by omega
        have hlen' : rest.length + 1 ≤ s.pool.idleConns.cap := by
          simpa [hb] using hlen
        by_cases hexp : now - (s.heap[a]).lastUsed > s.pool.conf.IdleTimeout
        · obtain ⟨kept, removed, hrun, hperm, hrem⟩ :=
            ih (i + 1) (withIdle s rest [a + 1]) (by simpa [withIdle] using ho)
              (by
                intro p hp
                simp only [withIdle] at hp ⊢
                exact hv p (by simp [hb, hp]))
              (by simp only [withIdle]; omega)
              (by
                simp only [withIdle]
                simp only [hb, List.length_cons] at hfuel
                omega)
          refine ⟨kept, (a + 1) :: removed, ?_, ?_, ?_⟩
          · rw [sweepLoop]
            simp only [hi, if_true, Chan.tryRecv, hb, deref, List.getElem?_eq_getElem ha, hexp]
            rw [withIdle_withIdle] at hrun
            simpa [withIdle] using hrun
          · simp only [withIdle] at hperm
            exact (List.perm_middle.trans (List.Perm.cons _ hperm))
          · intro p hp
            rcases List.mem_cons.mp hp with rfl | hp
            · exact ⟨s.heap[a], by simp [deref, List.getElem?_eq_getElem ha], hexp⟩
            · simpa [expired, withIdle] using hrem p hp
        · obtain ⟨kept, removed, hrun, hperm, hrem⟩ :=
            ih (i + 1) (withIdle s (rest ++ [a + 1]) []) (by simpa [withIdle] using ho)
              (by
                intro p hp
                simp only [withIdle] at hp ⊢
                refine hv p ?_
                rw [hb]
                rcases List.mem_append.mp hp with hp | hp
                · exact List.mem_cons_of_mem _ hp
                · simp at hp; simp [hp])
              (by simp only [withIdle, List.length_append, List.length_singleton]; omega)
              (by
                simp only [withIdle, List.length_append, List.length_singleton]
                simp only [hb, List.length_cons] at hfuel
                omega)
          refine ⟨kept, removed, ?_, ?_, ?_⟩
          · rw [sweepLoop]
            have hroom : rest.length < s.pool.idleConns.cap := by omega
            simp only [hi, if_true, Chan.tryRecv, hb, deref, List.getElem?_eq_getElem ha, hexp,
              if_false, Chan.trySend, ho, hroom]
            rw [withIdle_withIdle] at hrun
            simpa [withIdle, ho] using hrun
          · simp only [withIdle] at hperm
            exact hperm.trans (List.perm_append_singleton _ _)
          · intro p hp
            simpa [expired, withIdle] using hrem p hp
    · refine ⟨s.pool.idleConns.buf, [], ?_, by simp, by simp⟩
      rw [sweepLoop]
      simp [hi, withIdle_self]

/-! ## The invariant under well-formed use -/

theorem Inv_pendingInc (config : PoolConfig) (s : State) (out : List Nat)
    (hI : Inv config { st := s, out := out }) : Inv config { st := pendingInc s, out := out } := by
  obtain ⟨h1, h2, h3, h4, h5, h6, h7, h8, h9, h10⟩ := hI
  exact ⟨h1, h2, h3, h4, h5, h6, h7, h8, h9, h10⟩

theorem Inv_get (config : PoolConfig) (y : Sys) (hI : Inv config y) (ctx : Context) (now : Int) :
    ∃ y1, y.step (.get ctx now) = some y1 ∧ Inv config y1 := by
  obtain ⟨s, out⟩ := y
  rcases he : ctx.err with _ | e
  swap
  · exact ⟨⟨pendingInc s, out⟩, by simp [Sys.step, GetConnection_cancelled s ctx now e he],
      Inv_pendingInc config s out hI⟩
  by_cases ht : s.pool.conf.ConnectTimout ≤ 0
  · exact ⟨⟨pendingInc s, out⟩, by simp [Sys.step, GetConnection_timeout s ctx now he ht],
      Inv_pendingInc config s out hI⟩
  have ht' : 0 < s.pool.conf.ConnectTimout := by omega
  by_cases hp : 1 ≤ s.pool.sem.size - s.pool.sem.cur
  swap
  · rcases hl : ctx.later with _ | e
    · exact ⟨⟨pendingInc s, out⟩,
        by simp [Sys.step, GetConnection_noPermit_parks s ctx now he ht' hp hl],
        Inv_pendingInc config s out hI⟩
    · exact ⟨⟨s, out⟩,
        by simp [Sys.step, GetConnection_noPermit_fires s ctx now e he ht' hp hl], hI⟩
  obtain ⟨h1, h2, h3, h4, h5, h6, h7, h8, h9, h10⟩ := hI
  simp only at h1 h2 h3 h4 h5 h6 h7 h8 h9 h10
  rcases hb : s.pool.idleConns.buf with _ | ⟨v, rest⟩
  · have ha : s.pool.activeConns < s.pool.conf.MaxSize := by rw [h1]; omega
    refine ⟨⟨_, _⟩, by
      simp only [Sys.step, GetConnection_mint s ctx now he ht' hp hb h2 ha]
      rfl, ?_⟩
    refine ⟨h1, h2, h3, h4, ?_, ?_, ?_, ?_, ?_, ?_⟩
    · simp [h5]
    · simp [h6]
    · simp only; omega
    · simpa using h8
    · intro p hp'
      simp only [hb, List.append_nil, List.mem_cons, List.length_append,
        List.length_singleton] at hp' ⊢
      rcases hp' with rfl | hp'
      · omega
      · have := h9 p (by simp [hp'])
        omega
    · simp only [hb, List.append_nil, List.nodup_cons] at h10 ⊢
      refine ⟨fun hmem => ?_, h10⟩
      have := h9 (s.heap.length + 1) (List.mem_append_left _ hmem)
      omega
  · rw [hb] at h8 h9 h10
    obtain ⟨hv0, hv1⟩ := h9 v (by simp)
    obtain ⟨a, rfl⟩ : ∃ a, v = a + 1 := ⟨v - 1, by omega⟩
    have ha : a < s.heap.length := by omega
    refine ⟨⟨_, _⟩, by
      simp only [Sys.step, GetConnection_reuse s ctx now a rest s.heap[a] he ht' hp hb
        (List.getElem?_eq_getElem ha)]
      rfl, ?_⟩
    refine ⟨h1, h2, h3, h4, ?_, ?_, ?_, ?_, ?_, ?_⟩
    · simp [h5]
    · simp [h6]
    · simp only; omega
    · simp only [List.length_cons] at h8 ⊢; omega
    · intro p hp'
      simp only [List.length_set]
      exact h9 p (by
        simp only [List.mem_append, List.mem_cons] at hp' ⊢
        tauto)
    · simp only
      have : ((a + 1) :: out ++ rest).Perm (out ++ (a + 1) :: rest) := by
        simpa using
          (List.perm_middle : (out ++ (a + 1) :: rest).Perm ((a + 1) :: (out ++ rest))).symm
      exact this.nodup_iff.mpr h10

theorem deref_of_valid (heap : List Connection) (p : Nat) (h0 : 0 < p) (h1 : p ≤ heap.length) :
    ∃ c, deref heap p = some c := by
  obtain ⟨a, rfl⟩ : ∃ a, p = a + 1 := ⟨p - 1, by omega⟩
  have ha : a < heap.length := by omega
  exact ⟨heap[a], by simp [deref, List.getElem?_eq_getElem ha]⟩

theorem Inv_release (config : PoolConfig) (y : Sys) (hI : Inv config y) (conn : Nat) (now : Int)
    (hmem : conn ∈ y.out) :
    ∃ y1, y.step (.release conn now) = some y1 ∧ Inv config y1 := by
  obtain ⟨s, out⟩ := y
  obtain ⟨h1, h2, h3, h4, h5, h6, h7, h8, h9, h10⟩ := hI
  simp only at h1 h2 h3 h4 h5 h6 h7 h8 h9 h10 hmem
  obtain ⟨hv0, hv1⟩ := h9 conn (List.mem_append_left _ hmem)
  obtain ⟨c, hc⟩ := deref_of_valid s.heap conn hv0 hv1
  have hpos : 0 < out.length := List.length_pos_of_mem hmem
  have hcur : 1 ≤ s.pool.sem.cur := by omega
  have hlen : ((out.erase conn).length : Int) = (out.length : Int) - 1 := by
    rw [List.length_erase_of_mem hmem]; omega
  have hperm : (conn :: (out.erase conn ++ s.pool.idleConns.buf)).Perm
      (out ++ s.pool.idleConns.buf) :=
    (List.Perm.append_right _ (List.perm_cons_erase hmem)).symm
  have hnd := hperm.nodup_iff.mpr h10
  by_cases hroom : s.pool.idleConns.buf.length < s.pool.idleConns.cap
  · refine ⟨⟨_, _⟩, by
      simp only [Sys.step, hmem, if_true, Release_put s conn now c hc h2 hroom hcur]
      rfl, ?_⟩
    refine ⟨h1, h2, h3, h4, ?_, ?_, ?_, ?_, ?_, ?_⟩
    · simp only [released]; omega
    · simp only [released]; omega
    · simp only [released]; omega
    · simp only [List.length_append, List.length_singleton]; omega
    · intro p hp
      simp only [List.mem_append, List.mem_singleton] at hp
      rcases hp with hp | hp | rfl
      · exact h9 p (List.mem_append_left _ (List.mem_of_mem_erase hp))
      · exact h9 p (List.mem_append_right _ hp)
      · exact ⟨hv0, hv1⟩
    · simp only
      rw [← List.append_assoc]
      exact (List.perm_append_singleton _ _).nodup_iff.mpr hnd
  · refine ⟨⟨_, _⟩, by
      simp only [Sys.step, hmem, if_true, Release_full s conn now c hc h2 hroom hcur]
      rfl, ?_⟩
    refine ⟨h1, h2, h3, h4, ?_, ?_, ?_, h8, ?_, ?_⟩
    · simp only [released]; omega
    · simp only [released]; omega
    · simp only [released]; omega
    · intro p hp
      simp only [List.mem_append] at hp
      rcases hp with hp | hp
      · exact h9 p (List.mem_append_left _ (List.mem_of_mem_erase hp))
      · exact h9 p (List.mem_append_right _ hp)
    · exact (List.nodup_cons.mp hnd).2

theorem Inv_sweep (config : PoolConfig) (y : Sys) (hI : Inv config y) (now : Int) :
    ∃ y1, y.step (.sweep now) = some y1 ∧ Inv config y1 := by
  obtain ⟨s, out⟩ := y
  obtain ⟨h1, h2, h3, h4, h5, h6, h7, h8, h9, h10⟩ := hI
  simp only at h1 h2 h3 h4 h5 h6 h7 h8 h9 h10
  obtain ⟨kept, removed, hrun, hperm, -⟩ :=
    sweepLoop_spec now s.pool.idleConns.len 0 s h2
      (fun p hp => h9 p (List.mem_append_right _ hp)) h8 (by simp [Chan.len])
  refine ⟨⟨withIdle s kept removed, out⟩, by
    simp only [Sys.step, trackIdleConnections, hrun], ?_⟩
  have hsub : ∀ p ∈ kept, p ∈ s.pool.idleConns.buf :=
    fun p hp => hperm.subset (List.mem_append_left _ hp)
  refine ⟨h1, h2, h3, h4, h5, h6, h7, ?_, ?_, ?_⟩
  · have := hperm.length_eq
    simp only [List.length_append] at this
    simp only [withIdle]
    omega
  · intro p hp
    simp only [withIdle, List.mem_append] at hp ⊢
    rcases hp with hp | hp
    · exact h9 p (List.mem_append_left _ hp)
    · exact h9 p (List.mem_append_right _ (hsub p hp))
  · simp only [withIdle]
    have h := ((List.Perm.append_left out hperm).nodup_iff).mpr h10
    rw [← List.append_assoc] at h
    exact List.Nodup.of_append_left h

theorem Inv_New (config : PoolConfig) (s : State) (h : New config = .ret s) :
    Inv config { st := s, out := [] } := by
  unfold New at h
  split at h
  · simp at h
  · rename_i hmin
    simp only [Res.ret.injEq] at h
    subst h
    refine ⟨rfl, rfl, rfl, ?_, rfl, rfl, ?_, ?_, ?_, ?_⟩
    · simp only; omega
    · simp [NewWeighted]
    · simp
    · simp
    · simp

theorem Inv_run (config : PoolConfig) (calls : List Call) :
    ∀ (y y1 : Sys), Inv config y → y.run calls = some y1 → Inv config y1 := by
  induction calls with
  | nil =>
    intro y y1 hI h
    simp only [Sys.run, Option.some.injEq] at h
    exact h ▸ hI
  | cons c cs ih =>
    intro y y1 hI h
    simp only [Sys.run] at h
    rcases hs : y.step c with _ | y2
    · simp [hs] at h
    · rw [hs] at h
      refine ih y2 y1 ?_ h
      cases c with
      | get ctx now =>
        obtain ⟨y3, h3, hI3⟩ := Inv_get config y hI ctx now
        rw [hs] at h3
        exact (Option.some.inj h3) ▸ hI3
      | release conn now =>
        have hmem : conn ∈ y.out := by
          by_contra hne
          simp [Sys.step, hne] at hs
        obtain ⟨y3, h3, hI3⟩ := Inv_release config y hI conn now hmem
        rw [hs] at h3
        exact (Option.some.inj h3) ▸ hI3
      | sweep now =>
        obtain ⟨y3, h3, hI3⟩ := Inv_sweep config y hI now
        rw [hs] at h3
        exact (Option.some.inj h3) ▸ hI3

/-! ## Every outcome of `GetConnection` -/

theorem exists_panic_of_snd {α : Type} (x : State × Res α) (pn : Panic)
    (h : x.2 = .panic pn) : ∃ s1 pn, x = (s1, .panic pn) := by
  obtain ⟨s1, r⟩ := x
  exact ⟨s1, pn, by simp only at h; rw [h]⟩

/-- The eight ways a call of `GetConnection` can end, each with its state. -/
theorem GetConnection_cases (s : State) (ctx : Context) (now : Int) :
    (∃ e, GetConnection s ctx now = (pendingInc s, .ret (0, some (.couldNotGet e)))) ∨
    (∃ e, GetConnection s ctx now = (s, .ret (0, some (.couldNotAcquire e)))) ∨
    (GetConnection s ctx now = (pendingInc s, .blocked)) ∨
    (∃ a rest c, s.pool.idleConns.buf = (a + 1) :: rest ∧ s.heap[a]? = some c ∧
      GetConnection s ctx now =
        ({ pool := { s.pool with
                      sem := { s.pool.sem with cur := s.pool.sem.cur + 1 }
                      idleConns := { s.pool.idleConns with buf := rest }
                      activeConns := s.pool.activeConns + 1 }
           heap := s.heap.set a { c with lastUsed := now }
           closeCalls := s.closeCalls }, .ret (a + 1, none))) ∨
    (∃ s1 pn, GetConnection s ctx now = (s1, .panic pn)) ∨
    (∃ e, s.pool.idleConns.buf = [] ∧
      GetConnection s ctx now = (s, .ret (0, some (.ctxErr e)))) ∨
    (s.pool.idleConns.buf = [] ∧ GetConnection s ctx now = (permitTaken s, .blocked)) ∨
    (s.pool.idleConns.buf = [] ∧ s.pool.activeConns < s.pool.conf.MaxSize ∧
      GetConnection s ctx now =
        ({ pool := { s.pool with
                      sem := { s.pool.sem with cur := s.pool.sem.cur + 1 }
                      activeConns := s.pool.activeConns + 1 }
           heap := s.heap ++ [{ Id := s.pool.activeConns + 1, lastUsed := now }]
           closeCalls := s.closeCalls }, .ret (s.heap.length + 1, none))) := by
  rcases he : ctx.err with _ | e
  swap
  · exact Or.inl ⟨e, GetConnection_cancelled s ctx now e he⟩
  by_cases ht : s.pool.conf.ConnectTimout ≤ 0
  · exact Or.inl ⟨_, GetConnection_timeout s ctx now he ht⟩
  have ht' : 0 < s.pool.conf.ConnectTimout := by omega
  by_cases hp : 1 ≤ s.pool.sem.size - s.pool.sem.cur
  swap
  · rcases hl : ctx.later with _ | e
    · exact Or.inr (Or.inr (Or.inl (GetConnection_noPermit_parks s ctx now he ht' hp hl)))
    · exact Or.inr (Or.inl ⟨e, GetConnection_noPermit_fires s ctx now e he ht' hp hl⟩)
  rcases hb : s.pool.idleConns.buf with _ | ⟨v, rest⟩
  · rcases hc : s.pool.idleConns.closed with _ | _
    · by_cases ha : s.pool.activeConns < s.pool.conf.MaxSize
      · exact Or.inr (Or.inr (Or.inr (Or.inr (Or.inr (Or.inr (Or.inr
          ⟨rfl, ha, GetConnection_mint s ctx now he ht' hp hb hc ha⟩))))))
      · have ha' : s.pool.conf.MaxSize ≤ s.pool.activeConns := by omega
        rw [GetConnection_permit s ctx now he ht' hp]
        rcases hl : ctx.later with _ | e
        · refine Or.inr (Or.inr (Or.inr (Or.inr (Or.inr (Or.inr (Or.inl ⟨rfl, ?_⟩))))))
          simp [permitTaken, Chan.tryRecv, hb, hc, ha', waitIdle, Context.doneErr, he, hl]
        · by_cases hneg : s.pool.sem.cur < 0
          · refine Or.inr (Or.inr (Or.inr (Or.inr (Or.inl
              (exists_panic_of_snd _ .semReleasedMoreThanHeld ?_)))))
            simp [permitTaken, Chan.tryRecv, hb, hc, ha', waitIdle, Context.doneErr, he, hl,
              Weighted.Release, hneg]
          · refine Or.inr (Or.inr (Or.inr (Or.inr (Or.inr (Or.inl ⟨e, rfl, ?_⟩)))))
            simp [permitTaken, Chan.tryRecv, hb, hc, ha', waitIdle, Context.doneErr, he, hl,
              Weighted.Release, hneg]
    · refine Or.inr (Or.inr (Or.inr (Or.inr (Or.inl (exists_panic_of_snd _ .nilDeref ?_)))))
      rw [GetConnection_permit s ctx now he ht' hp]
      simp [permitTaken, Chan.tryRecv, hb, hc, checkout]
  · rcases v with _ | a
    · refine Or.inr (Or.inr (Or.inr (Or.inr (Or.inl (exists_panic_of_snd _ .nilDeref ?_)))))
      rw [GetConnection_permit s ctx now he ht' hp]
      simp [permitTaken, Chan.tryRecv, hb, checkout]
    · rcases hh : s.heap[a]? with _ | c
      · refine Or.inr (Or.inr (Or.inr (Or.inr (Or.inl (exists_panic_of_snd _ .nilDeref ?_)))))
        rw [GetConnection_permit s ctx now he ht' hp]
        simp [permitTaken, Chan.tryRecv, hb, checkout, hh]
      · exact Or.inr (Or.inr (Or.inr (Or.inl
          ⟨a, rest, c, rfl, hh, GetConnection_reuse s ctx now a rest c he ht' hp hb hh⟩)))

/-! ## Execution counters along a run -/

/-- Unless it panics, `GetConnection` does not touch the execution counters. -/
theorem GetConnection_exec_frame (s : State) (ctx : Context) (now : Int)
    (hnp : ∀ pn, (GetConnection s ctx now).2 ≠ .panic pn) :
    (GetConnection s ctx now).1.pool.execCount = s.pool.execCount ∧
    (GetConnection s ctx now).1.pool.execDuration = s.pool.execDuration := by
  rcases GetConnection_cases s ctx now with
    ⟨e, h⟩ | ⟨e, h⟩ | h | ⟨a, rest, c, -, -, h⟩ | ⟨s1, pn, h⟩ | ⟨e, -, h⟩ | ⟨-, h⟩ | ⟨-, -, h⟩
  all_goals first
    | (exfalso; exact hnp pn (by rw [h]))
    | (rw [h]; exact ⟨rfl, rfl⟩)

theorem Sys.step_get_exec (y y1 : Sys) (ctx : Context) (now : Int)
    (h : y.step (.get ctx now) = some y1) :
    y1.st.pool.execCount = y.st.pool.execCount ∧
    y1.st.pool.execDuration = y.st.pool.execDuration := by
  have hf := GetConnection_exec_frame y.st ctx now
  simp only [Sys.step] at h
  rcases hr : GetConnection y.st ctx now with ⟨s1, r⟩
  rw [hr] at h hf
  have hnp : ∀ pn, r ≠ .panic pn := by
    intro pn hpn
    subst hpn
    simp at h
  replace hf := hf hnp
  simp only at hf
  rcases r with ⟨conn, _ | e⟩ | _ | pn
  · simp only [Option.some.injEq] at h; subst h; exact hf
  · simp only [Option.some.injEq] at h; subst h; exact hf
  · simp only [Option.some.injEq] at h; subst h; exact hf
  · simp at h

theorem run_exec_counters (config : PoolConfig) (calls : List Call) :
    ∀ (y y1 : Sys), Inv config y → y.run calls = some y1 →
      (y.durations calls).length = calls.countP Call.isRelease ∧
      y1.st.pool.execCount = y.st.pool.execCount + ((y.durations calls).length : Int) ∧
      y1.st.pool.execDuration = y.st.pool.execDuration + (y.durations calls).sum := by
  induction calls with
  | nil =>
    intro y y1 _ h
    simp only [Sys.run, Option.some.injEq] at h
    subst h
    simp [Sys.durations]
  | cons c cs ih =>
    intro y y1 hI h
    simp only [Sys.run] at h
    rcases hs : y.step c with _ | y2
    · simp [hs] at h
    · rw [hs] at h
      have hI2 : Inv config y2 := Inv_run config [c] y y2 hI (by simp [Sys.run, hs])
      obtain ⟨ih0, ih1, ih2⟩ := ih y2 y1 hI2 h
      cases c with
      | get ctx now =>
        obtain ⟨h1, h2⟩ := Sys.step_get_exec y y2 ctx now hs
        simp only [Sys.durations, hs, List.countP_cons, Call.isRelease]
        refine ⟨by simpa using ih0, ?_, ?_⟩
        · rw [ih1, h1]
        · rw [ih2, h2]
      | sweep now =>
        obtain ⟨kept, removed, hrun, -, -⟩ :=
          sweepLoop_spec now y.st.pool.idleConns.len 0 y.st hI.open_
            (fun p hp => hI.valid p (List.mem_append_right _ hp)) hI.len_le (by simp [Chan.len])
        simp only [Sys.step, trackIdleConnections, hrun, Option.some.injEq] at hs
        subst hs
        simp only [Sys.durations, Sys.step, trackIdleConnections, hrun, List.countP_cons,
          Call.isRelease]
        refine ⟨by simpa using ih0, ?_, ?_⟩
        · rw [ih1]; rfl
        · rw [ih2]; rfl
      | release conn now =>
        have hmem : conn ∈ y.out := by
          by_contra hne
          simp [Sys.step, hne] at hs
        obtain ⟨hv0, hv1⟩ := hI.valid conn (List.mem_append_left _ hmem)
        obtain ⟨k, hk⟩ := deref_of_valid y.st.heap conn hv0 hv1
        have hpos : 0 < y.out.length := List.length_pos_of_mem hmem
        have hcur : 1 ≤ y.st.pool.sem.cur := by
          have h1 := hI.active_eq
          have h2 := hI.cur_eq
          omega
        have hy2 : y2.st.pool.execCount = y.st.pool.execCount + 1 ∧
            y2.st.pool.execDuration = y.st.pool.execDuration + (now - k.lastUsed) := by
          by_cases hroom : y.st.pool.idleConns.buf.length < y.st.pool.idleConns.cap
          · simp only [Sys.step, hmem, if_true,
              Release_put y.st conn now k hk hI.open_ hroom hcur, Option.some.injEq] at hs
            subst hs
            exact ⟨rfl, rfl⟩
          · simp only [Sys.step, hmem, if_true,
              Release_full y.st conn now k hk hI.open_ hroom hcur, Option.some.injEq] at hs
            subst hs
            exact ⟨rfl, rfl⟩
        simp only [Sys.durations, hs, hk, List.countP_cons, Call.isRelease, List.length_cons,
          List.sum_cons]
        refine ⟨by simpa using ih0, ?_, ?_⟩
        · rw [ih1, hy2.1]; push_cast; ring
        · rw [ih2, hy2.2]; ring

/-! ## The capacity of the idle registry, with no assumption on usage -/

theorem Release_inv (s : State) (conn : Nat) (now : Int)
    (hnp : ∀ pn, (Release s conn now).2 ≠ .panic pn) :
    ∃ c, deref s.heap conn = some c ∧ s.pool.idleConns.closed = false ∧ 1 ≤ s.pool.sem.cur := by
  rcases hc : deref s.heap conn with _ | c
  · exfalso
    by_cases hneg : s.pool.sem.cur - 1 < 0
    · exact hnp .semReleasedMoreThanHeld (by
        simp [Release, releaseBody, hc, deferSemRelease, Weighted.Release, hneg])
    · exact hnp .nilDeref (by
        simp [Release, releaseBody, hc, deferSemRelease, Weighted.Release, hneg])
  · rcases ho : s.pool.idleConns.closed with _ | _
    · by_cases hneg : s.pool.sem.cur - 1 < 0
      · exfalso
        by_cases hroom : s.pool.idleConns.buf.length < s.pool.idleConns.cap
        · exact hnp .semReleasedMoreThanHeld (by
            simp [Release, releaseBody, hc, deferSemRelease, Weighted.Release, hneg,
              Chan.trySend, ho, hroom])
        · exact hnp .semReleasedMoreThanHeld (by
            simp [Release, releaseBody, hc, deferSemRelease, Weighted.Release, hneg,
              Chan.trySend, ho, hroom])
      · exact ⟨c, rfl, rfl, by omega⟩
    · exfalso
      by_cases hneg : s.pool.sem.cur - 1 < 0
      · exact hnp .semReleasedMoreThanHeld (by
          simp [Release, releaseBody, hc, deferSemRelease, Weighted.Release, hneg,
            Chan.trySend, ho])
      · exact hnp .sendOnClosed (by
          simp [Release, releaseBody, hc, deferSemRelease, Weighted.Release, hneg,
            Chan.trySend, ho])

theorem GetConnection_idle_frame (s : State) (ctx : Context) (now : Int)
    (hnp : ∀ pn, (GetConnection s ctx now).2 ≠ .panic pn) :
    (GetConnection s ctx now).1.pool.conf = s.pool.conf ∧
    (GetConnection s ctx now).1.pool.idleConns.cap = s.pool.idleConns.cap ∧
    (GetConnection s ctx now).1.pool.idleConns.buf.length ≤ s.pool.idleConns.buf.length := by
  rcases GetConnection_cases s ctx now with
    ⟨e, h⟩ | ⟨e, h⟩ | h | ⟨a, rest, c, hb, -, h⟩ | ⟨s1, pn, h⟩ | ⟨e, -, h⟩ | ⟨-, h⟩ | ⟨-, -, h⟩
  all_goals first
    | (exfalso; exact hnp pn (by rw [h]))
    | (rw [h]; exact ⟨rfl, rfl, le_refl _⟩)
    | (rw [h]; refine ⟨rfl, rfl, ?_⟩; simp [hb])

theorem Release_idle_frame (s : State) (conn : Nat) (now : Int)
    (hnp : ∀ pn, (Release s conn now).2 ≠ .panic pn) :
    (Release s conn now).1.pool.conf = s.pool.conf ∧
    (Release s conn now).1.pool.idleConns.cap = s.pool.idleConns.cap ∧
    (Release s conn now).1.pool.idleConns.buf.length ≤ s.pool.idleConns.cap ⊔
      s.pool.idleConns.buf.length := by
  obtain ⟨c, hc, ho, hcur⟩ := Release_inv s conn now hnp
  by_cases hroom : s.pool.idleConns.buf.length < s.pool.idleConns.cap
  · rw [Release_put s conn now c hc ho hroom hcur]
    refine ⟨rfl, rfl, ?_⟩
    simp only [List.length_append, List.length_singleton]
    exact le_sup_of_le_left hroom
  · rw [Release_full s conn now c hc ho hroom hcur]
    exact ⟨rfl, rfl, le_sup_right⟩

theorem sweepLoop_idle_frame (now : Int) :
    ∀ (fuel i : Nat) (s : State) (r : State × Res Unit),
      sweepLoop now fuel i s = some r →
      r.1.pool.conf = s.pool.conf ∧
      r.1.pool.idleConns.cap = s.pool.idleConns.cap ∧
      (s.pool.idleConns.buf.length ≤ s.pool.idleConns.cap →
        r.1.pool.idleConns.buf.length ≤ s.pool.idleConns.cap) := by
  intro fuel
  induction fuel with
  | zero =>
    intro i s r h
    rw [sweepLoop] at h
    split at h
    · simp at h
    · simp only [Option.some.injEq] at h
      subst h
      exact ⟨rfl, rfl, id⟩
  | succ fuel ih =>
    intro i s r h
    rw [sweepLoop] at h
    split at h
    swap
    · simp only [Option.some.injEq] at h
      subst h
      exact ⟨rfl, rfl, id⟩
    · rename_i hi
      rcases hb : s.pool.idleConns.buf with _ | ⟨v, rest⟩
      · simp [Chan.len, hb] at hi
      · simp only [Chan.tryRecv, hb] at h
        split at h
        · simp only [Option.some.injEq] at h
          subst h
          refine ⟨rfl, rfl, fun hle => ?_⟩
          simp only [List.length_cons] at hle ⊢
          omega
        · split at h
          · obtain ⟨h0, h1, h2⟩ := ih _ _ _ h
            refine ⟨h0, h1, fun hle => ?_⟩
            simp only [List.length_cons] at hle
            exact h2 (by simp only; omega)
          · rcases ho : s.pool.idleConns.closed with _ | _
            · by_cases hroom : rest.length < s.pool.idleConns.cap
              · simp only [Chan.trySend, ho, hroom, if_true, Bool.false_eq_true, if_false] at h
                obtain ⟨h0, h1, h2⟩ := ih _ _ _ h
                refine ⟨h0, h1, fun hle => ?_⟩
                exact h2 (by simp only [List.length_append, List.length_singleton]; omega)
              · simp only [Chan.trySend, ho, hroom, Bool.false_eq_true, if_false,
                  Option.some.injEq] at h
                subst h
                refine ⟨rfl, rfl, fun hle => ?_⟩
                simp only [List.length_cons] at hle ⊢
                omega
            · simp only [Chan.trySend, ho, if_true, Option.some.injEq] at h
              subst h
              refine ⟨rfl, rfl, fun hle => ?_⟩
              simp only [List.length_cons] at hle ⊢
              omega

theorem State.step_idle_frame (s s1 : State) (c : Call) (h : s.step c = some s1) :
    s1.pool.conf = s.pool.conf ∧
    s1.pool.idleConns.cap = s.pool.idleConns.cap ∧
    (s.pool.idleConns.buf.length ≤ s.pool.idleConns.cap →
      s1.pool.idleConns.buf.length ≤ s.pool.idleConns.cap) := by
  cases c with
  | get ctx now =>
    have hf := GetConnection_idle_frame s ctx now
    simp only [State.step] at h
    rcases hr : GetConnection s ctx now with ⟨s2, r⟩
    rw [hr] at h hf
    rcases r with a | _ | pn
    · simp only [Option.some.injEq] at h
      subst h
      obtain ⟨h0, h1, h2⟩ := hf (by intro pn; simp)
      exact ⟨h0, h1, fun hle => le_trans h2 hle⟩
    · simp only [Option.some.injEq] at h
      subst h
      obtain ⟨h0, h1, h2⟩ := hf (by intro pn; simp)
      exact ⟨h0, h1, fun hle => le_trans h2 hle⟩
    · simp at h
  | release conn now =>
    have hf := Release_idle_frame s conn now
    simp only [State.step] at h
    rcases hr : Release s conn now with ⟨s2, r⟩
    rw [hr] at h hf
    rcases r with a | _ | pn
    · simp only [Option.some.injEq] at h
      subst h
      obtain ⟨h0, h1, h2⟩ := hf (by intro pn; simp)
      exact ⟨h0, h1, fun hle => le_trans h2 (sup_le (le_refl _) hle)⟩
    · simp only [Option.some.injEq] at h
      subst h
      obtain ⟨h0, h1, h2⟩ := hf (by intro pn; simp)
      exact ⟨h0, h1, fun hle => le_trans h2 (sup_le (le_refl _) hle)⟩
    · simp at h
  | sweep now =>
    simp only [State.step, trackIdleConnections] at h
    rcases hr : sweepLoop now s.pool.idleConns.len 0 s with _ | ⟨s2, r⟩
    · simp [hr] at h
    · rw [hr] at h
      have hf := sweepLoop_idle_frame now _ _ s _ hr
      rcases r with a | _ | pn
      · simp only [Option.some.injEq] at h
        subst h
        exact hf
      · simp only [Option.some.injEq] at h
        subst h
        exact hf
      · simp at h

theorem State.run_idle_frame (calls : List Call) :
    ∀ (s s1 : State), s.run calls = some s1 →
      s1.pool.conf = s.pool.conf ∧
      s1.pool.idleConns.cap = s.pool.idleConns.cap ∧
      (s.pool.idleConns.buf.length ≤ s.pool.idleConns.cap →
        s1.pool.idleConns.buf.length ≤ s.pool.idleConns.cap) := by
  induction calls with
  | nil =>
    intro s s1 h
    simp only [State.run, Option.some.injEq] at h
    subst h
    exact ⟨rfl, rfl, id⟩
  | cons c cs ih =>
    intro s s1 h
    simp only [State.run] at h
    rcases hs : s.step c with _ | s2
    · simp [hs] at h
    · rw [hs] at h
      obtain ⟨a0, a1, a2⟩ := State.step_idle_frame s s2 c hs
      obtain ⟨b0, b1, b2⟩ := ih s2 s1 h
      refine ⟨b0.trans a0, b1.trans a1, fun hle => ?_⟩
      rw [← a1]
      exact b2 (by rw [a1]; exact a2 hle)

/-! ## `Close` -/

theorem closeLoop_spec (l : List Nat) :
    ∀ s : State, closeLoop s l = (withIdle s [] l, .ret none) := by
  induction l with
  | nil =>
    intro s
    simp [closeLoop, withIdle]
  | cons conn rest ih =>
    intro s
    simp only [closeLoop, Connection.Close]
    rw [ih]
    simp [withIdle]

theorem Close_open (s : State) (ho : s.pool.idleConns.closed = false) :
    Close s =
      (withIdle { s with pool := { s.pool with
                    idleConns := { s.pool.idleConns with closed := true } } } []
        s.pool.idleConns.buf, .ret none) := by
  simp only [Close, ho, Bool.false_eq_true, if_false]
  rw [closeLoop_spec]

theorem Close_closed (s : State) (hc : s.pool.idleConns.closed = true) :
    Close s = (s, .panic .closeOfClosed) := by
  simp [Close, hc]

/-! ## `Release` when no permit is held -/

theorem Release_noPermit (s : State) (conn : Nat) (now : Int) (c : Connection)
    (hc : deref s.heap conn = some c) (ho : s.pool.idleConns.closed = false)
    (hcur : s.pool.sem.cur < 1) :
    (Release s conn now).2 = .panic .semReleasedMoreThanHeld ∧
    (Release s conn now).1.pool.activeConns = s.pool.activeConns - 1 ∧
    (Release s conn now).1.pool.execCount = s.pool.execCount + 1 ∧
    (Release s conn now).1.pool.execDuration = s.pool.execDuration + (now - c.lastUsed) ∧
    (Release s conn now).1.pool.sem.cur = s.pool.sem.cur - 1 := by
  have hneg : s.pool.sem.cur - 1 < 0 := by omega
  by_cases hroom : s.pool.idleConns.buf.length < s.pool.idleConns.cap
  · simp [Release, releaseBody, hc, Chan.trySend, ho, hroom, deferSemRelease, Weighted.Release,
      hneg]
  · simp [Release, releaseBody, hc, Chan.trySend, ho, hroom, deferSemRelease, Weighted.Release,
      hneg, Connection.Close]

/-! ## Outcomes of `GetConnection` under the invariant -/

/-- Under well-formed use `GetConnection` ends in one of five ways: an early
error, a failed wait for a permit, a wait for a permit that never ends, the
reuse of the front idle handle, or a new handle. -/
theorem GetConnection_cases_Inv (config : PoolConfig) (y : Sys) (hI : Inv config y)
    (ctx : Context) (now : Int) :
    (∃ e, GetConnection y.st ctx now = (pendingInc y.st, .ret (0, some (.couldNotGet e)))) ∨
    (∃ e, GetConnection y.st ctx now = (y.st, .ret (0, some (.couldNotAcquire e)))) ∨
    (GetConnection y.st ctx now = (pendingInc y.st, .blocked)) ∨
    (∃ a rest c, y.st.pool.idleConns.buf = (a + 1) :: rest ∧ y.st.heap[a]? = some c ∧
      GetConnection y.st ctx now =
        ({ pool := { y.st.pool with
                      sem := { y.st.pool.sem with cur := y.st.pool.sem.cur + 1 }
                      idleConns := { y.st.pool.idleConns with buf := rest }
                      activeConns := y.st.pool.activeConns + 1 }
           heap := y.st.heap.set a { c with lastUsed := now }
           closeCalls := y.st.closeCalls }, .ret (a + 1, none))) ∨
    (ctx.err = none ∧ 0 < y.st.pool.conf.ConnectTimout ∧ 1 ≤ permitsAvailable y.st ∧
      y.st.pool.idleConns.buf = [] ∧ 0 ≤ y.st.pool.activeConns ∧
      y.st.pool.activeConns < y.st.pool.conf.MaxSize ∧
      GetConnection y.st ctx now =
        ({ pool := { y.st.pool with
                      sem := { y.st.pool.sem with cur := y.st.pool.sem.cur + 1 }
                      activeConns := y.st.pool.activeConns + 1 }
           heap := y.st.heap ++ [{ Id := y.st.pool.activeConns + 1, lastUsed := now }]
           closeCalls := y.st.closeCalls }, .ret (y.st.heap.length + 1, none))) := by
  obtain ⟨s, out⟩ := y
  rcases he : ctx.err with _ | e
  swap
  · exact Or.inl ⟨e, GetConnection_cancelled s ctx now e he⟩
  by_cases ht : s.pool.conf.ConnectTimout ≤ 0
  · exact Or.inl ⟨_, GetConnection_timeout s ctx now he ht⟩
  have ht' : 0 < s.pool.conf.ConnectTimout := by omega
  by_cases hp : 1 ≤ s.pool.sem.size - s.pool.sem.cur
  swap
  · rcases hl : ctx.later with _ | e
    · exact Or.inr (Or.inr (Or.inl (GetConnection_noPermit_parks s ctx now he ht' hp hl)))
    · exact Or.inr (Or.inl ⟨e, GetConnection_noPermit_fires s ctx now e he ht' hp hl⟩)
  obtain ⟨h1, h2, h3, h4, h5, h6, h7, h8, h9, h10⟩ := hI
  simp only at h1 h2 h3 h4 h5 h6 h7 h8 h9 h10
  rcases hb : s.pool.idleConns.buf with _ | ⟨v, rest⟩
  · have ha : s.pool.activeConns < s.pool.conf.MaxSize := by rw [h1]; omega
    have ha0 : 0 ≤ s.pool.activeConns := by omega
    exact Or.inr (Or.inr (Or.inr (Or.inr
      ⟨rfl, ht', hp, rfl, ha0, ha, GetConnection_mint s ctx now he ht' hp hb h2 ha⟩)))
  · rw [hb] at h9
    obtain ⟨hv0, hv1⟩ := h9 v (by simp)
    obtain ⟨a, rfl⟩ : ∃ a, v = a + 1 := ⟨v - 1, by omega⟩
    have ha : a < s.heap.length := by omega
    exact Or.inr (Or.inr (Or.inr (Or.inl
      ⟨a, rest, s.heap[a], rfl, List.getElem?_eq_getElem ha,
        GetConnection_reuse s ctx now a rest s.heap[a] he ht' hp hb
          (List.getElem?_eq_getElem ha)⟩)))

/-! ## The reaper cycle statement by statement -/

theorem reaperRun_guard_exit (now : Int) (i : Nat) (s : State)
    (hi : ¬ i < s.pool.idleConns.len) :
    reaperRun now 2 { st := s, pc := .guard i } = some (s, .ret ()) := by
  simp [reaperRun, reaperStep, hi]

/-- Run without interference, the statements of the reaper cycle produce what
`sweepLoop` produces. -/
theorem reaperRun_refines_sweepLoop (now : Int) :
    ∀ (fuel i : Nat) (s : State) (r : State × Res Unit),
      sweepLoop now fuel i s = some r →
      ∃ n, reaperRun now n { st := s, pc := .guard i } = some r := by
  intro fuel
  induction fuel with
  | zero =>
    intro i s r h
    rw [sweepLoop] at h
    split at h
    · simp at h
    · rename_i hi
      simp only [Option.some.injEq] at h
      subst h
      exact ⟨2, reaperRun_guard_exit now i s hi⟩
  | succ fuel ih =>
    intro i s r h
    rw [sweepLoop] at h
    split at h
    swap
    · rename_i hi
      simp only [Option.some.injEq] at h
      subst h
      exact ⟨2, reaperRun_guard_exit now i s hi⟩
    · rename_i hi
      rcases hb : s.pool.idleConns.buf with _ | ⟨v, rest⟩
      · simp [Chan.len, hb] at hi
      · simp only [Chan.tryRecv, hb] at h
        rcases hd : deref s.heap v with _ | k
        · simp only [hd, Option.some.injEq] at h
          subst h
          exact ⟨3, by simp [reaperRun, reaperStep, hi, Chan.tryRecv, hb, hd]⟩
        · simp only [hd] at h
          by_cases hexp : now - k.lastUsed > s.pool.conf.IdleTimeout
          · simp only [hexp, if_true] at h
            obtain ⟨n, hn⟩ := ih _ _ _ h
            exact ⟨n + 3, by simpa [reaperRun, reaperStep, hi, Chan.tryRecv, hb, hd, hexp] using hn⟩
          · simp only [hexp, if_false] at h
            rcases ho : s.pool.idleConns.closed with _ | _
            · by_cases hroom : rest.length < s.pool.idleConns.cap
              · simp only [Chan.trySend, ho, hroom, if_true, Bool.false_eq_true, if_false] at h
                obtain ⟨n, hn⟩ := ih _ _ _ h
                exact ⟨n + 4, by
                  simpa [reaperRun, reaperStep, hi, Chan.tryRecv, hb, hd, hexp, Chan.trySend, ho,
                    hroom] using hn⟩
              · simp only [Chan.trySend, ho, hroom, Bool.false_eq_true, if_false,
                  Option.some.injEq] at h
                subst h
                exact ⟨4, by
                  simp [reaperRun, reaperStep, hi, Chan.tryRecv, hb, hd, hexp, Chan.trySend, ho,
                    hroom]⟩
            · simp only [Chan.trySend, ho, if_true, Option.some.injEq] at h
              subst h
              exact ⟨4, by
                simp [reaperRun, reaperStep, hi, Chan.tryRecv, hb, hd, hexp, Chan.trySend, ho]⟩

/-! ## Capacity bound -/

/-- C1: for a pool created by `New` with `MaxSize >= 0`, after every finite
sequence of `GetConnection` calls, `Release` calls applied to handles that are
checked out (once per checkout) and reaper sweeps, the active count satisfies
`0 <= activeConns <= MaxSize`, and it never exceeds the number of semaphore
permits currently held, which itself is at most `MaxSize`. -/
theorem activeConns_bounded (config : PoolConfig) (s0 : State) (calls : List Call) (y : Sys)
    (hmax : 0 ≤ config.MaxSize) (hnew : New config = .ret s0)
    (hrun : Sys.run { st := s0, out := [] } calls = some y) :
    0 ≤ ActiveConnections y.st ∧ ActiveConnections y.st ≤ config.MaxSize ∧
    ActiveConnections y.st ≤ y.st.pool.sem.cur ∧ y.st.pool.sem.cur ≤ config.MaxSize := by
  have hI := Inv_run config calls _ y (Inv_New config s0 hnew) hrun
  have h1 := hI.active_eq
  have h2 := hI.cur_eq
  have h3 := hI.cur_le
  have h4 : max config.MaxSize 0 = config.MaxSize := max_eq_left hmax
  simp only [ActiveConnections]
  omega

theorem activeConns_bounded_witness :
    (0 : Int) ≤ exampleConfig.MaxSize ∧ New exampleConfig = .ret exampleStart ∧
    Sys.run { st := exampleStart, out := [] } exampleCalls = some exampleEnd ∧
    (0 ≤ ActiveConnections exampleEnd.st ∧ ActiveConnections exampleEnd.st ≤ exampleConfig.MaxSize ∧
     ActiveConnections exampleEnd.st ≤ exampleEnd.st.pool.sem.cur ∧
     exampleEnd.st.pool.sem.cur ≤ exampleConfig.MaxSize) :=
  ⟨by decide, by decide, by decide!,
    activeConns_bounded exampleConfig exampleStart exampleCalls exampleEnd (by decide) (by decide)
      (by decide!)⟩

/-! ## Reuse precedence -/

/-- C2: when the idle registry is non-empty, a permit is free, the context is
live and `ConnectTimout > 0`, `GetConnection` returns the handle at the front
of the registry, allocates no new handle, removes exactly that handle from the
registry and increments `activeConns` by one (the handle is a valid pointer:
`Release` dereferences its argument before the send, so `nil` never enters
the registry). In particular, with
`MinSize >= 1` and an empty registry, `Release h` of a checked-out handle
followed by `GetConnection` returns the same handle `h`. -/
theorem reuse_precedence :
    (∀ (s : State) (ctx : Context) (now : Int) (h : Nat) (rest : List Nat) (c : Connection),
      ctx.err = none → 0 < s.pool.conf.ConnectTimout → 1 ≤ permitsAvailable s →
      s.pool.idleConns.buf = h :: rest → deref s.heap h = some c →
      (GetConnection s ctx now).2 = .ret (h, none) ∧
      (GetConnection s ctx now).1.heap.length = s.heap.length ∧
      (GetConnection s ctx now).1.pool.idleConns.buf = rest ∧
      (GetConnection s ctx now).1.pool.activeConns = s.pool.activeConns + 1) ∧
    (∀ (s : State) (ctx : Context) (now1 now2 : Int) (h : Nat) (c : Connection),
      1 ≤ s.pool.conf.MinSize → (s.pool.idleConns.cap : Int) = s.pool.conf.MinSize →
      s.pool.idleConns.closed = false → s.pool.idleConns.buf = [] →
      deref s.heap h = some c → 1 ≤ s.pool.sem.cur → s.pool.sem.cur ≤ s.pool.sem.size →
      ctx.err = none → 0 < s.pool.conf.ConnectTimout →
      (Release s h now1).2 = .ret none ∧
      (GetConnection (Release s h now1).1 ctx now2).2 = .ret (h, none)) := by
  constructor
  · intro s ctx now h rest c he ht hp hb hc
    obtain ⟨a, rfl⟩ : ∃ a, h = a + 1 := by
      cases h with
      | zero => simp [deref] at hc
      | succ a => exact ⟨a, rfl⟩
    simp only [deref] at hc
    simp only [permitsAvailable] at hp
    rw [GetConnection_reuse s ctx now a rest c he ht hp hb hc]
    simp
  · intro s ctx now1 now2 h c hmin hcap ho hb hc hcur hle he ht
    have hroom : s.pool.idleConns.buf.length < s.pool.idleConns.cap := by
      rw [hb]; simp only [List.length_nil]; omega
    rw [Release_put s h now1 c hc ho hroom hcur]
    refine ⟨rfl, ?_⟩
    obtain ⟨a, rfl⟩ : ∃ a, h = a + 1 := by
      cases h with
      | zero => simp [deref] at hc
      | succ a => exact ⟨a, rfl⟩
    simp only [deref] at hc
    rw [GetConnection_reuse _ ctx now2 a [] c he (by simpa [released] using ht)
      (by simp only [released]; omega) (by simp [hb]) (by simpa using hc)]

theorem reuse_precedence_witness :
    ((GetConnection oneIdle Context.TODO 9).2 = .ret (2, none) ∧
      (GetConnection oneIdle Context.TODO 9).1.heap.length = oneIdle.heap.length ∧
      (GetConnection oneIdle Context.TODO 9).1.pool.idleConns.buf = [] ∧
      (GetConnection oneIdle Context.TODO 9).1.pool.activeConns = oneIdle.pool.activeConns + 1) ∧
    ((Release oneOut 1 8).2 = .ret none ∧
      (GetConnection (Release oneOut 1 8).1 Context.TODO 9).2 = .ret (1, none)) :=
  ⟨reuse_precedence.1 oneIdle Context.TODO 9 2 [] { Id := 2, lastUsed := 1 } (by decide)
      (by decide) (by decide) (by decide) (by decide),
    reuse_precedence.2 oneOut Context.TODO 8 9 1 { Id := 1, lastUsed := 3 } (by decide)
      (by decide) (by decide) (by decide) (by decide) (by decide) (by decide) (by decide)
      (by decide)⟩

/-! ## The reaper sweep -/

/-- C3 (the code departs from the claim): in a state reached from `New` by two
checkouts and two releases at time 0, both idle handles have rested longer
than `IdleTimeout = 10` at time 100, yet one sweep cycle closes only handle 1:
handle 2, which is expired, is still in the registry after the sweep. -/
theorem sweep_leaves_expired_handle :
    New twoIdleConfig = .ret twoIdleStart ∧
    Sys.run { st := twoIdleStart, out := [] } twoIdleCalls = some { st := twoIdle, out := [] } ∧
    deref twoIdle.heap 1 = some { Id := 1, lastUsed := 0 } ∧
    deref twoIdle.heap 2 = some { Id := 2, lastUsed := 0 } ∧
    (100 : Int) - 0 > twoIdle.pool.conf.IdleTimeout ∧
    trackIdleConnections twoIdle 100 = some (withIdle twoIdle [2] [1], .ret ()) ∧
    (withIdle twoIdle [2] [1]).pool.idleConns.buf = [2] ∧
    (withIdle twoIdle [2] [1]).heap = twoIdle.heap := by
  refine ⟨by decide, by decide!, by decide, by decide, by decide, by decide!, rfl, rfl⟩

/-! ## Error paths of `GetConnection` -/

/-- C4: whenever `GetConnection` returns an error it returns the nil handle
and leaves `activeConns`, the idle registry, the heap and the number of free
permits as they were before the call; whenever it returns a handle without
error, exactly one permit fewer is free. -/
theorem GetConnection_permit_accounting (s : State) (ctx : Context) (now : Int) :
    (∀ conn e, (GetConnection s ctx now).2 = .ret (conn, some e) →
      conn = 0 ∧
      (GetConnection s ctx now).1.pool.activeConns = s.pool.activeConns ∧
      (GetConnection s ctx now).1.pool.idleConns = s.pool.idleConns ∧
      (GetConnection s ctx now).1.heap = s.heap ∧
      permitsAvailable (GetConnection s ctx now).1 = permitsAvailable s) ∧
    (∀ conn, (GetConnection s ctx now).2 = .ret (conn, none) →
      permitsAvailable (GetConnection s ctx now).1 = permitsAvailable s - 1) := by
  rcases GetConnection_cases s ctx now with
    ⟨e, h⟩ | ⟨e, h⟩ | h | ⟨a, rest, c, -, -, h⟩ | ⟨s1, pn, h⟩ | ⟨e, -, h⟩ | ⟨-, h⟩ | ⟨-, -, h⟩
  all_goals
    rw [h]
    refine ⟨fun conn e hr => ?_, fun conn hr => ?_⟩
  all_goals first
    | (simp at hr; done)
    | exact ⟨(Prod.mk.inj (Res.ret.inj hr)).1.symm, rfl, rfl, rfl, rfl⟩
    | (simp only [permitsAvailable, pendingInc]; omega)

theorem GetConnection_permit_accounting_witness :
    ((GetConnection exampleStart cancelledCtx 0).2 = .ret (0, some (.couldNotGet .Canceled)) ∧
      ((0 : Nat) = 0 ∧
      (GetConnection exampleStart cancelledCtx 0).1.pool.activeConns
        = exampleStart.pool.activeConns ∧
      (GetConnection exampleStart cancelledCtx 0).1.pool.idleConns
        = exampleStart.pool.idleConns ∧
      (GetConnection exampleStart cancelledCtx 0).1.heap = exampleStart.heap ∧
      permitsAvailable (GetConnection exampleStart cancelledCtx 0).1
        = permitsAvailable exampleStart)) ∧
    ((GetConnection exampleStart Context.TODO 0).2 = .ret (1, none) ∧
      permitsAvailable (GetConnection exampleStart Context.TODO 0).1
        = permitsAvailable exampleStart - 1) :=
  ⟨⟨by decide, (GetConnection_permit_accounting exampleStart cancelledCtx 0).1 0
      (.couldNotGet .Canceled) (by decide)⟩,
    ⟨by decide, (GetConnection_permit_accounting exampleStart Context.TODO 0).2 1
      (by decide)⟩⟩

/-- C5 (the code departs from the claim): with a context that is already
cancelled, and likewise with a live context and `ConnectTimout = 0`,
`GetConnection` returns its error after the increment of `pendingConnections`
and without the decrement: the pending count is one more than before. -/
theorem pendingConnections_leaks_on_early_return :
    (GetConnection exampleStart cancelledCtx 0).2 = .ret (0, some (.couldNotGet .Canceled)) ∧
    PendingConnections exampleStart = 0 ∧
    PendingConnections (GetConnection exampleStart cancelledCtx 0).1 = 1 ∧
    (GetConnection zeroTimeoutStart Context.TODO 0).2
      = .ret (0, some (.couldNotGet .DeadlineExceeded)) ∧
    PendingConnections zeroTimeoutStart = 0 ∧
    PendingConnections (GetConnection zeroTimeoutStart Context.TODO 0).1 = 1 := by
  decide

/-! ## `Release` -/

/-- C6: on an open pool, `Release h` of a checked-out handle returns a nil
error; when the registry holds fewer than `MinSize` handles it puts `h` at the
back of the registry (the other entries and their order unchanged, the idle
count one more, nothing closed), and otherwise it leaves the registry unchanged
and closes `h`. -/
theorem Release_puts_back_or_closes (s : State) (h : Nat) (now : Int) (c : Connection)
    (ho : s.pool.idleConns.closed = false)
    (hcap : (s.pool.idleConns.cap : Int) = s.pool.conf.MinSize)
    (hc : deref s.heap h = some c) (hcur : 1 ≤ s.pool.sem.cur) :
    (Release s h now).2 = .ret none ∧
    (IdleConnections s < s.pool.conf.MinSize →
      (Release s h now).1.pool.idleConns.buf = s.pool.idleConns.buf ++ [h] ∧
      IdleConnections (Release s h now).1 = IdleConnections s + 1 ∧
      (Release s h now).1.closeCalls = s.closeCalls) ∧
    (¬ IdleConnections s < s.pool.conf.MinSize →
      (Release s h now).1.pool.idleConns = s.pool.idleConns ∧
      (Release s h now).1.closeCalls = s.closeCalls ++ [h]) := by
  simp only [IdleConnections, Chan.len, ← hcap, Nat.cast_lt]
  by_cases hroom : s.pool.idleConns.buf.length < s.pool.idleConns.cap
  · rw [Release_put s h now c hc ho hroom hcur]
    simp [hroom]
  · rw [Release_full s h now c hc ho hroom hcur]
    simp [hroom, released]

theorem Release_puts_back_or_closes_witness :
    ((Release oneOut 1 8).2 = .ret none ∧
      IdleConnections oneOut < oneOut.pool.conf.MinSize ∧
      (Release oneOut 1 8).1.pool.idleConns.buf = oneOut.pool.idleConns.buf ++ [1] ∧
      IdleConnections (Release oneOut 1 8).1 = IdleConnections oneOut + 1 ∧
      (Release oneOut 1 8).1.closeCalls = oneOut.closeCalls) ∧
    ((Release oneIdle 1 8).2 = .ret none ∧
      ¬ IdleConnections oneIdle < oneIdle.pool.conf.MinSize ∧
      (Release oneIdle 1 8).1.pool.idleConns = oneIdle.pool.idleConns ∧
      (Release oneIdle 1 8).1.closeCalls = oneIdle.closeCalls ++ [1]) :=
  ⟨⟨(Release_puts_back_or_closes oneOut 1 8 { Id := 1, lastUsed := 3 } (by decide) (by decide)
        (by decide) (by decide)).1, by decide,
      (Release_puts_back_or_closes oneOut 1 8 { Id := 1, lastUsed := 3 } (by decide) (by decide)
        (by decide) (by decide)).2.1 (by decide)⟩,
    ⟨(Release_puts_back_or_closes oneIdle 1 8 { Id := 1, lastUsed := 3 } (by decide) (by decide)
        (by decide) (by decide)).1, by decide,
      (Release_puts_back_or_closes oneIdle 1 8 { Id := 1, lastUsed := 3 } (by decide) (by decide)
        (by decide) (by decide)).2.2 (by decide)⟩⟩

/-- C7: on an open pool, `Release h` of a checked-out handle at time `now`
decrements `activeConns` by one, increments `execCount` by one, adds
`now - h.lastUsed` to `execDuration`, leaves `pendingConnections` unchanged and
returns exactly one permit, whether `h` went back to the registry or was
closed. -/
theorem Release_accounting (s : State) (h : Nat) (now : Int) (c : Connection)
    (ho : s.pool.idleConns.closed = false)
    (hc : deref s.heap h = some c) (hcur : 1 ≤ s.pool.sem.cur) :
    (Release s h now).2 = .ret none ∧
    (Release s h now).1.pool.activeConns = s.pool.activeConns - 1 ∧
    (Release s h now).1.pool.execCount = s.pool.execCount + 1 ∧
    (Release s h now).1.pool.execDuration = s.pool.execDuration + (now - c.lastUsed) ∧
    (Release s h now).1.pool.pendingConnections = s.pool.pendingConnections ∧
    (Release s h now).1.pool.sem.cur = s.pool.sem.cur - 1 ∧
    permitsAvailable (Release s h now).1 = permitsAvailable s + 1 := by
  by_cases hroom : s.pool.idleConns.buf.length < s.pool.idleConns.cap
  · rw [Release_put s h now c hc ho hroom hcur]
    refine ⟨rfl, rfl, rfl, rfl, rfl, rfl, ?_⟩
    simp only [released, permitsAvailable]
    omega
  · rw [Release_full s h now c hc ho hroom hcur]
    refine ⟨rfl, rfl, rfl, rfl, rfl, rfl, ?_⟩
    simp only [released, permitsAvailable]
    omega

theorem Release_accounting_witness :
    (Release oneIdle 1 8).2 = .ret none ∧
    (Release oneIdle 1 8).1.pool.activeConns = oneIdle.pool.activeConns - 1 ∧
    (Release oneIdle 1 8).1.pool.execCount = oneIdle.pool.execCount + 1 ∧
    (Release oneIdle 1 8).1.pool.execDuration = oneIdle.pool.execDuration + (8 - 3) ∧
    (Release oneIdle 1 8).1.pool.pendingConnections = oneIdle.pool.pendingConnections ∧
    (Release oneIdle 1 8).1.pool.sem.cur = oneIdle.pool.sem.cur - 1 ∧
    permitsAvailable (Release oneIdle 1 8).1 = permitsAvailable oneIdle + 1 :=
  Release_accounting oneIdle 1 8 { Id := 1, lastUsed := 3 } (by decide) (by decide) (by decide)

/-! ## `ExecutionAverage` -/

/-- C8: `ExecutionAverage` returns the zero duration when `execCount = 0`, in
particular on a fresh pool, and otherwise `execDuration / execCount` with the
quotient truncated toward zero. After a run from `New` in which `n` releases
measured the durations `d1, ..., dn`, `execCount = n`, and for `n >= 1` the
average is `(d1 + ... + dn) / n`. -/
theorem ExecutionAverage_spec :
    (∀ s : State, s.pool.execCount = 0 → ExecutionAverage s = 0) ∧
    (∀ s : State, s.pool.execCount ≠ 0 →
      ExecutionAverage s = s.pool.execDuration.tdiv s.pool.execCount) ∧
    (∀ (config : PoolConfig) (s0 : State), New config = .ret s0 → ExecutionAverage s0 = 0) ∧
    (∀ (config : PoolConfig) (s0 : State) (calls : List Call) (y : Sys),
      New config = .ret s0 → Sys.run { st := s0, out := [] } calls = some y →
      (Sys.durations { st := s0, out := [] } calls).length = calls.countP Call.isRelease ∧
      y.st.pool.execCount = ((Sys.durations { st := s0, out := [] } calls).length : Int) ∧
      (1 ≤ (Sys.durations { st := s0, out := [] } calls).length →
        ExecutionAverage y.st =
          ((Sys.durations { st := s0, out := [] } calls).sum).tdiv
            ((Sys.durations { st := s0, out := [] } calls).length : Int))) := by
  refine ⟨fun s h => by simp [ExecutionAverage, h], fun s h => by simp [ExecutionAverage, h],
    ?_, ?_⟩
  · intro config s0 hnew
    unfold New at hnew
    split at hnew
    · simp at hnew
    · simp only [Res.ret.injEq] at hnew
      subst hnew
      simp [ExecutionAverage]
  · intro config s0 calls y hnew hrun
    obtain ⟨h0, h1, h2⟩ := run_exec_counters config calls _ y (Inv_New config s0 hnew) hrun
    have hc0 : s0.pool.execCount = 0 ∧ s0.pool.execDuration = 0 := by
      unfold New at hnew
      split at hnew
      · simp at hnew
      · simp only [Res.ret.injEq] at hnew
        subst hnew
        exact ⟨rfl, rfl⟩
    simp only [hc0.1, hc0.2, zero_add] at h1 h2
    refine ⟨h0, h1, fun hn => ?_⟩
    have hne : y.st.pool.execCount ≠ 0 := by omega
    simp only [ExecutionAverage, if_neg hne, h2]
    rw [h1]

theorem ExecutionAverage_spec_witness :
    (ExecutionAverage exampleStart = 0) ∧
    (ExecutionAverage exampleEnd.st = (29 : Int).tdiv 2) ∧
    (ExecutionAverage exampleStart = 0) ∧
    ((Sys.durations { st := exampleStart, out := [] } exampleCalls).length
        = exampleCalls.countP Call.isRelease ∧
      exampleEnd.st.pool.execCount
        = ((Sys.durations { st := exampleStart, out := [] } exampleCalls).length : Int) ∧
      (1 ≤ (Sys.durations { st := exampleStart, out := [] } exampleCalls).length →
        ExecutionAverage exampleEnd.st =
          ((Sys.durations { st := exampleStart, out := [] } exampleCalls).sum).tdiv
            ((Sys.durations { st := exampleStart, out := [] } exampleCalls).length : Int))) :=
  ⟨ExecutionAverage_spec.1 exampleStart (by decide),
    ExecutionAverage_spec.2.1 exampleEnd.st (by decide),
    ExecutionAverage_spec.2.2.1 exampleConfig exampleStart (by decide),
    ExecutionAverage_spec.2.2.2 exampleConfig exampleStart exampleCalls exampleEnd (by decide)
      (by decide!)⟩

/-! ## Capacity of the idle registry -/

/-- C9: in every state reached from `New` by `GetConnection` calls, `Release`
calls (of any handle) and reaper sweeps, `IdleConnections` is at most
`MinSize`. With `MinSize = 0` it is `0` in every such state, and every
`Release` that returns there has closed its handle and left the registry
empty. -/
theorem IdleConnections_le_MinSize (config : PoolConfig) (s0 s : State) (calls : List Call)
    (hnew : New config = .ret s0) (hrun : State.run s0 calls = some s) :
    IdleConnections s ≤ config.MinSize ∧
    (config.MinSize = 0 →
      IdleConnections s = 0 ∧
      ∀ conn now r, (Release s conn now).2 = .ret r →
        (Release s conn now).1.closeCalls = s.closeCalls ++ [conn] ∧
        IdleConnections (Release s conn now).1 = 0) := by
  obtain ⟨h0, h1, h2⟩ := State.run_idle_frame calls s0 s hrun
  have hs0 : 0 ≤ config.MinSize ∧ s0.pool.idleConns.cap = config.MinSize.toNat ∧
      s0.pool.idleConns.buf = [] := by
    unfold New at hnew
    split at hnew
    · simp at hnew
    · simp only [Res.ret.injEq] at hnew
      subst hnew
      exact ⟨by omega, rfl, rfl⟩
  obtain ⟨hmin, hcap, hbuf⟩ := hs0
  have hlen : s.pool.idleConns.buf.length ≤ s0.pool.idleConns.cap := h2 (by simp [hbuf])
  have hle : IdleConnections s ≤ config.MinSize := by
    simp only [IdleConnections, Chan.len]
    omega
  refine ⟨hle, fun hz => ?_⟩
  have hcap0 : s.pool.idleConns.cap = 0 := by rw [h1, hcap, hz]; rfl
  have hb0 : s.pool.idleConns.buf = [] := by
    apply List.eq_nil_of_length_eq_zero
    rw [hcap, hz] at hlen
    simpa using hlen
  refine ⟨by simp [IdleConnections, Chan.len, hb0], fun conn now r hr => ?_⟩
  obtain ⟨c, hc, ho, hcur⟩ := Release_inv s conn now (by intro pn; rw [hr]; simp)
  have hfull : ¬ s.pool.idleConns.buf.length < s.pool.idleConns.cap := by
    rw [hcap0]; omega
  rw [Release_full s conn now c hc ho hfull hcur]
  exact ⟨rfl, by simp [IdleConnections, Chan.len, released, hb0]⟩

theorem IdleConnections_le_MinSize_witness :
    New noIdleConfig = .ret noIdleStart ∧ State.run noIdleStart noIdleCalls = some noIdleEnd ∧
    noIdleConfig.MinSize = 0 ∧ (Release noIdleEnd 2 9).2 = .ret none ∧
    IdleConnections noIdleEnd ≤ noIdleConfig.MinSize ∧ IdleConnections noIdleEnd = 0 ∧
    (Release noIdleEnd 2 9).1.closeCalls = noIdleEnd.closeCalls ++ [2] ∧
    IdleConnections (Release noIdleEnd 2 9).1 = 0 :=
  ⟨by decide, by decide!, by decide, by decide,
    (IdleConnections_le_MinSize noIdleConfig noIdleStart noIdleEnd noIdleCalls (by decide)
      (by decide!)).1,
    ((IdleConnections_le_MinSize noIdleConfig noIdleStart noIdleEnd noIdleCalls (by decide)
      (by decide!)).2 (by decide)).1,
    (((IdleConnections_le_MinSize noIdleConfig noIdleStart noIdleEnd noIdleCalls (by decide)
      (by decide!)).2 (by decide)).2 2 9 none (by decide)).1,
    (((IdleConnections_le_MinSize noIdleConfig noIdleStart noIdleEnd noIdleCalls (by decide)
      (by decide!)).2 (by decide)).2 2 9 none (by decide)).2⟩

/-! ## Operations after shutdown -/

/-- C10, as stated, fails: after `Close` has returned on a pool with handle 1
checked out and a free permit, `GetConnection` with a live context panics
(nil pointer dereference), `Release` of handle 1 panics (send on closed
channel) and a second `Close` panics (close of closed channel). -/
theorem operations_after_Close_counterexample :
    Close oneOut = (oneOutClosed, .ret none) ∧
    Context.TODO.err = none ∧ 1 ≤ permitsAvailable oneOutClosed ∧
    deref oneOutClosed.heap 1 = some { Id := 1, lastUsed := 3 } ∧
    (GetConnection oneOutClosed Context.TODO 9).2 = .panic .nilDeref ∧
    (Release oneOutClosed 1 9).2 = .panic .sendOnClosed ∧
    (Close oneOutClosed).2 = .panic .closeOfClosed := by
  decide

/-- C10, amended: the pool has no closed-pool error. Once `Close` has returned
(it returns nil), `GetConnection` with a live context, `ConnectTimout > 0` and
a free permit panics with a nil pointer dereference, `Release` of a valid
handle whose permit is still held panics with a send on a closed channel, and
a second `Close` panics with a close of a closed channel. -/
theorem operations_after_Close_panic (s : State) (r : Option PoolError)
    (hclose : (Close s).2 = .ret r) :
    r = none ∧
    (Close s).1.pool.idleConns.closed = true ∧ IdleConnections (Close s).1 = 0 ∧
    (∀ ctx now, ctx.err = none → 0 < s.pool.conf.ConnectTimout → 1 ≤ permitsAvailable s →
      (GetConnection (Close s).1 ctx now).2 = .panic .nilDeref) ∧
    (∀ h now c, deref s.heap h = some c → 1 ≤ s.pool.sem.cur →
      (Release (Close s).1 h now).2 = .panic .sendOnClosed) ∧
    (Close (Close s).1).2 = .panic .closeOfClosed := by
  rcases ho : s.pool.idleConns.closed with _ | _
  swap
  · rw [Close_closed s ho] at hclose
    simp at hclose
  rw [Close_open s ho] at hclose ⊢
  simp only [Res.ret.injEq] at hclose
  refine ⟨hclose.symm, rfl, rfl, ?_, ?_, ?_⟩
  · intro ctx now he ht hp
    simp only [permitsAvailable] at hp
    rw [GetConnection_permit _ ctx now he (by simpa [withIdle] using ht)
      (by simpa [withIdle] using hp)]
    simp [permitTaken, withIdle, Chan.tryRecv, checkout]
  · intro h now c hc hcur
    have hneg : ¬ s.pool.sem.cur - 1 < 0 := by omega
    simp [Release, releaseBody, withIdle, hc, Chan.trySend, deferSemRelease, Weighted.Release,
      hneg]
  · rw [Close_closed _ (by simp [withIdle])]

theorem operations_after_Close_panic_witness :
    (Close oneOut).2 = .ret none ∧
    (Close oneOut).1.pool.idleConns.closed = true ∧ IdleConnections (Close oneOut).1 = 0 ∧
    (GetConnection (Close oneOut).1 Context.TODO 9).2 = .panic .nilDeref ∧
    (Release (Close oneOut).1 1 9).2 = .panic .sendOnClosed ∧
    (Close (Close oneOut).1).2 = .panic .closeOfClosed :=
  ⟨by decide,
    (operations_after_Close_panic oneOut none (by decide)).2.1,
    (operations_after_Close_panic oneOut none (by decide)).2.2.1,
    (operations_after_Close_panic oneOut none (by decide)).2.2.2.1 Context.TODO 9 (by decide)
      (by decide) (by decide),
    (operations_after_Close_panic oneOut none (by decide)).2.2.2.2.1 1 9
      { Id := 1, lastUsed := 3 } (by decide) (by decide),
    (operations_after_Close_panic oneOut none (by decide)).2.2.2.2.2⟩

/-! ## `Release` of a handle that is not checked out -/

/-- C11, as stated, fails: after two checkouts and one release of handle 1,
handle 1 is not checked out (only handle 2 is). A second `Release` of handle 1
returns a nil error, yet `activeConns` drops from 1 to 0, `execCount` grows
from 1 to 2, `execDuration` from 5 to 11 and the held permits from 1 to 0. A
third `Release` of handle 1 panics and leaves `activeConns = -1`. -/
theorem Release_twice_counterexample :
    New exampleConfig = .ret exampleStart ∧
    Sys.run { st := exampleStart, out := [] } releaseOnceCalls
      = some { st := releasedOnce, out := [2] } ∧
    1 ∉ [2] ∧
    Release releasedOnce 1 6 = (releasedTwice, .ret none) ∧
    releasedOnce.pool.activeConns = 1 ∧ releasedTwice.pool.activeConns = 0 ∧
    releasedOnce.pool.execCount = 1 ∧ releasedTwice.pool.execCount = 2 ∧
    releasedOnce.pool.execDuration = 5 ∧ releasedTwice.pool.execDuration = 11 ∧
    permitsAvailable releasedOnce = 1 ∧ permitsAvailable releasedTwice = 2 ∧
    (Release releasedTwice 1 7).2 = .panic .semReleasedMoreThanHeld ∧
    (Release releasedTwice 1 7).1.pool.activeConns = -1 := by
  refine ⟨by decide, by decide!, by decide, by decide, by decide, by decide, by decide,
    by decide, by decide, by decide, by decide, by decide, by decide, by decide⟩

/-- C11, amended: `Release` performs no ownership check and reports no error.
On an open pool, for every valid handle `h` that is not currently checked out,
be it one already released or one the caller built itself, `Release h`
decrements `activeConns` by one, increments `execCount` by one and lowers the
number of held permits by one, exactly as for a checked-out handle; it returns
a nil error when a permit was still held, and panics with "released more than
held" when none was. It adds `now - h.lastUsed` to `execDuration` whenever
that duration and the new total fit an `int64`, as they do for a handle the
pool stamped; what is added for a handle with the zero `lastUsed`, where
`time.Since` saturates, is not stated. -/
theorem Release_without_ownership_check (y : Sys) (h : Nat) (now : Int) (c : Connection)
    (_hnot : h ∉ y.out) (ho : y.st.pool.idleConns.closed = false)
    (hc : deref y.st.heap h = some c) :
    (Release y.st h now).1.pool.activeConns = y.st.pool.activeConns - 1 ∧
    (Release y.st h now).1.pool.execCount = y.st.pool.execCount + 1 ∧
    (Release y.st h now).1.pool.sem.cur = y.st.pool.sem.cur - 1 ∧
    (1 ≤ y.st.pool.sem.cur → (Release y.st h now).2 = .ret none) ∧
    (y.st.pool.sem.cur < 1 → (Release y.st h now).2 = .panic .semReleasedMoreThanHeld) ∧
    (fitsInt64 (now - c.lastUsed) → fitsInt64 (y.st.pool.execDuration + (now - c.lastUsed)) →
      (Release y.st h now).1.pool.execDuration
        = y.st.pool.execDuration + (now - c.lastUsed)) := by
  by_cases hcur : 1 ≤ y.st.pool.sem.cur
  · have hn : ¬ y.st.pool.sem.cur < 1 := by omega
    by_cases hroom : y.st.pool.idleConns.buf.length < y.st.pool.idleConns.cap
    · rw [Release_put y.st h now c hc ho hroom hcur]
      exact ⟨rfl, rfl, rfl, fun _ => rfl, fun hlt => absurd hlt hn, fun _ _ => rfl⟩
    · rw [Release_full y.st h now c hc ho hroom hcur]
      exact ⟨rfl, rfl, rfl, fun _ => rfl, fun hlt => absurd hlt hn, fun _ _ => rfl⟩
  · have hlt : y.st.pool.sem.cur < 1 := by omega
    obtain ⟨h1, h2, h3, h4, h5⟩ := Release_noPermit y.st h now c hc ho hlt
    exact ⟨h2, h3, h5, fun hge => absurd hge hcur, fun _ => h1, fun _ _ => h4⟩

theorem Release_without_ownership_check_witness :
    (1 ∉ [2] ∧ (1 : Int) ≤ releasedOnce.pool.sem.cur ∧
      fitsInt64 (6 - 0) ∧ fitsInt64 (releasedOnce.pool.execDuration + (6 - 0)) ∧
      (Release releasedOnce 1 6).1.pool.activeConns = releasedOnce.pool.activeConns - 1 ∧
      (Release releasedOnce 1 6).1.pool.execCount = releasedOnce.pool.execCount + 1 ∧
      (Release releasedOnce 1 6).1.pool.sem.cur = releasedOnce.pool.sem.cur - 1 ∧
      (Release releasedOnce 1 6).2 = .ret none ∧
      (Release releasedOnce 1 6).1.pool.execDuration
        = releasedOnce.pool.execDuration + (6 - 0)) ∧
    (releasedTwice.pool.sem.cur < 1 ∧
      (Release releasedTwice 1 7).2 = .panic .semReleasedMoreThanHeld) ∧
    (2 ∉ [1] ∧ (1 : Int) ≤ foreignHandle.pool.sem.cur ∧
      ¬ fitsInt64 (8 - (-62135596800000000000)) ∧
      (Release foreignHandle 2 8).1.pool.activeConns = foreignHandle.pool.activeConns - 1 ∧
      (Release foreignHandle 2 8).1.pool.execCount = foreignHandle.pool.execCount + 1 ∧
      (Release foreignHandle 2 8).1.pool.sem.cur = foreignHandle.pool.sem.cur - 1 ∧
      (Release foreignHandle 2 8).2 = .ret none) :=
  ⟨⟨by decide, by decide, by unfold fitsInt64; decide, by unfold fitsInt64; decide,
      (Release_without_ownership_check { st := releasedOnce, out := [2] } 1 6
        { Id := 1, lastUsed := 0 } (by decide) (by decide) (by decide)).1,
      (Release_without_ownership_check { st := releasedOnce, out := [2] } 1 6
        { Id := 1, lastUsed := 0 } (by decide) (by decide) (by decide)).2.1,
      (Release_without_ownership_check { st := releasedOnce, out := [2] } 1 6
        { Id := 1, lastUsed := 0 } (by decide) (by decide) (by decide)).2.2.1,
      (Release_without_ownership_check { st := releasedOnce, out := [2] } 1 6
        { Id := 1, lastUsed := 0 } (by decide) (by decide) (by decide)).2.2.2.1 (by decide),
      (Release_without_ownership_check { st := releasedOnce, out := [2] } 1 6
        { Id := 1, lastUsed := 0 } (by decide) (by decide) (by decide)).2.2.2.2.2
        (by unfold fitsInt64; decide) (by unfold fitsInt64; decide)⟩,
    ⟨by decide,
      (Release_without_ownership_check { st := releasedTwice, out := [2] } 1 7
        { Id := 1, lastUsed := 0 } (by decide) (by decide) (by decide)).2.2.2.2.1 (by decide)⟩,
    ⟨by decide, by decide, by unfold fitsInt64; decide,
      (Release_without_ownership_check { st := foreignHandle, out := [1] } 2 8
        { Id := 7, lastUsed := -62135596800000000000 } (by decide) (by decide) (by decide)).1,
      (Release_without_ownership_check { st := foreignHandle, out := [1] } 2 8
        { Id := 7, lastUsed := -62135596800000000000 } (by decide) (by decide) (by decide)).2.1,
      (Release_without_ownership_check { st := foreignHandle, out := [1] } 2 8
        { Id := 7, lastUsed := -62135596800000000000 } (by decide) (by decide)
        (by decide)).2.2.1,
      (Release_without_ownership_check { st := foreignHandle, out := [1] } 2 8
        { Id := 7, lastUsed := -62135596800000000000 } (by decide) (by decide)
        (by decide)).2.2.2.1 (by decide)⟩⟩

/-! ## `Close` -/

/-- C12: on an open pool, `Close` calls `Connection.Close` on every handle
resting in the idle registry, in order, leaves the registry closed and empty
(`IdleConnections` is 0 afterwards), leaves `activeConns`, `execCount`,
`execDuration`, `pendingConnections`, the semaphore and the heap unchanged, and
returns nil. -/
theorem Close_drains_registry (s : State) (ho : s.pool.idleConns.closed = false) :
    (Close s).2 = .ret none ∧
    (Close s).1.closeCalls = s.closeCalls ++ s.pool.idleConns.buf ∧
    (Close s).1.pool.idleConns.buf = [] ∧ IdleConnections (Close s).1 = 0 ∧
    (Close s).1.pool.idleConns.closed = true ∧
    (Close s).1.pool.activeConns = s.pool.activeConns ∧
    (Close s).1.pool.execCount = s.pool.execCount ∧
    (Close s).1.pool.execDuration = s.pool.execDuration ∧
    (Close s).1.pool.pendingConnections = s.pool.pendingConnections ∧
    (Close s).1.pool.sem = s.pool.sem ∧ (Close s).1.heap = s.heap := by
  rw [Close_open s ho]
  exact ⟨rfl, rfl, rfl, rfl, rfl, rfl, rfl, rfl, rfl, rfl, rfl⟩

theorem Close_drains_registry_witness :
    (Close twoIdle).2 = .ret none ∧
    (Close twoIdle).1.closeCalls = twoIdle.closeCalls ++ twoIdle.pool.idleConns.buf ∧
    (Close twoIdle).1.pool.idleConns.buf = [] ∧ IdleConnections (Close twoIdle).1 = 0 ∧
    (Close twoIdle).1.pool.idleConns.closed = true ∧
    (Close twoIdle).1.pool.activeConns = twoIdle.pool.activeConns ∧
    (Close twoIdle).1.pool.execCount = twoIdle.pool.execCount ∧
    (Close twoIdle).1.pool.execDuration = twoIdle.pool.execDuration ∧
    (Close twoIdle).1.pool.pendingConnections = twoIdle.pool.pendingConnections ∧
    (Close twoIdle).1.pool.sem = twoIdle.pool.sem ∧ (Close twoIdle).1.heap = twoIdle.heap :=
  Close_drains_registry twoIdle (by decide)

/-! ## What a sweep keeps -/

/-- C13: on an open pool whose registry holds valid handles, one sweep cycle
at time `now` completes and never loses a live handle: every handle with
`now - lastUsed <= IdleTimeout` occurs in the registry after the sweep as often
as before, with the heap (hence every `lastUsed`) unchanged; every handle in
the registry afterwards was there before; and the handles removed are exactly
the ones logged as closed by the sweep, each once per removal, all of them
expired. -/
theorem sweep_keeps_live_handles (s : State) (now : Int)
    (ho : s.pool.idleConns.closed = false)
    (hv : ∀ p ∈ s.pool.idleConns.buf, 0 < p ∧ p ≤ s.heap.length)
    (hlen : s.pool.idleConns.buf.length ≤ s.pool.idleConns.cap) :
    trackIdleConnections s now = some (sweep s now, .ret ()) ∧
    (sweep s now).heap = s.heap ∧
    (∀ p c, deref s.heap p = some c → now - c.lastUsed ≤ s.pool.conf.IdleTimeout →
      (sweep s now).pool.idleConns.buf.count p = s.pool.idleConns.buf.count p) ∧
    (∀ p ∈ (sweep s now).pool.idleConns.buf, p ∈ s.pool.idleConns.buf) ∧
    ∃ removed, (sweep s now).closeCalls = s.closeCalls ++ removed ∧
      ((sweep s now).pool.idleConns.buf ++ removed).Perm s.pool.idleConns.buf ∧
      ∀ p ∈ removed, expired s now p := by
  obtain ⟨kept, removed, hrun, hperm, hrem⟩ :=
    sweepLoop_spec now s.pool.idleConns.len 0 s ho hv hlen (by simp [Chan.len])
  have hsw : sweep s now = withIdle s kept removed := by
    simp [sweep, trackIdleConnections, hrun]
  rw [hsw]
  refine ⟨hrun, rfl, ?_, ?_, removed, rfl, hperm, hrem⟩
  · intro p c hc hlive
    have hnot : p ∉ removed := by
      intro hmem
      obtain ⟨c1, hc1, hexp⟩ := hrem p hmem
      rw [hc] at hc1
      cases hc1
      omega
    have hcount := hperm.count_eq p
    rw [List.count_append, List.count_eq_zero_of_not_mem hnot] at hcount
    simpa [withIdle] using hcount
  · intro p hp
    exact hperm.subset (List.mem_append_left _ (by simpa [withIdle] using hp))

theorem sweep_keeps_live_handles_witness :
    trackIdleConnections twoIdle 5 = some (sweep twoIdle 5, .ret ()) ∧
    (sweep twoIdle 5).heap = twoIdle.heap ∧
    (sweep twoIdle 5).pool.idleConns.buf.count 1 = twoIdle.pool.idleConns.buf.count 1 ∧
    (∀ p ∈ (sweep twoIdle 5).pool.idleConns.buf, p ∈ twoIdle.pool.idleConns.buf) ∧
    ∃ removed, (sweep twoIdle 5).closeCalls = twoIdle.closeCalls ++ removed ∧
      ((sweep twoIdle 5).pool.idleConns.buf ++ removed).Perm twoIdle.pool.idleConns.buf ∧
      ∀ p ∈ removed, expired twoIdle 5 p :=
  ⟨(sweep_keeps_live_handles twoIdle 5 (by decide) (by decide) (by decide)).1,
    (sweep_keeps_live_handles twoIdle 5 (by decide) (by decide) (by decide)).2.1,
    (sweep_keeps_live_handles twoIdle 5 (by decide) (by decide) (by decide)).2.2.1 1
      { Id := 1, lastUsed := 0 } (by decide) (by decide),
    (sweep_keeps_live_handles twoIdle 5 (by decide) (by decide) (by decide)).2.2.2.1,
    (sweep_keeps_live_handles twoIdle 5 (by decide) (by decide) (by decide)).2.2.2.2⟩

/-! ## The reaper cycle and concurrent callers -/

/-- C14 (the code departs from the claim): the reaper cycle is not atomic with
respect to the channel operations of callers, and the reaper can park on the
registry while it holds `mu`. Two schedules at time 50, both from the state
reached by two checkouts and a release of handle 1 (registry `[1]`, capacity
1). First: the reaper passes the test of line 180; a caller of `GetConnection`
that is past line 71 takes handle 1 with the receive of line 80; the reaper's
receive of line 181 then finds the registry empty and parks, `mu` held.
Second: the reaper receives handle 1 and finds it live; a `Release` of handle
2 that is past line 124 puts handle 2 in the registry with the send of line
127; the reaper's send of line 187 then finds the registry full and parks,
`mu` held. Without interference either cycle runs to its end. -/
theorem reaper_parks_holding_mu :
    (reaperStep 50 { st := callerAtLine78, pc := .guard 0 }
        = .ret { st := callerAtLine78, pc := .recv 0 } ∧
      callerRecv { st := callerAtLine78, pc := .recv 0 }
        = ({ st := withIdle callerAtLine78 [] [], pc := .recv 0 }, some 1) ∧
      reaperStep 50 { st := withIdle callerAtLine78 [] [], pc := .recv 0 } = .blocked ∧
      (ReaperPc.recv 0).holdsMu = true ∧
      (trackIdleConnections callerAtLine78 50).map Prod.snd = some (.ret ())) ∧
    (reaperStep 50 { st := releasingTwo, pc := .guard 0 }
        = .ret { st := releasingTwo, pc := .recv 0 } ∧
      reaperStep 50 { st := releasingTwo, pc := .recv 0 }
        = .ret { st := withIdle releasingTwo [] [], pc := .test 0 1 } ∧
      reaperStep 50 { st := withIdle releasingTwo [] [], pc := .test 0 1 }
        = .ret { st := withIdle releasingTwo [] [], pc := .send 0 1 } ∧
      callerSend { st := withIdle releasingTwo [] [], pc := .send 0 1 } 2
        = .ret { st := withIdle releasingTwo [2] [], pc := .send 0 1 } ∧
      reaperStep 50 { st := withIdle releasingTwo [2] [], pc := .send 0 1 } = .blocked ∧
      (ReaperPc.send 0 1).holdsMu = true ∧
      (trackIdleConnections releasingTwo 50).map Prod.snd = some (.ret ())) := by
  refine ⟨⟨by decide, by decide, by decide, by decide, by decide!⟩,
    ⟨by decide, by decide, by decide, by decide, by decide, by decide, by decide!⟩⟩

/-! ## The handle a checkout returns -/

/-- C15: after every successful `GetConnection` at time `now` the returned
handle, whether taken from the idle registry or newly allocated, has
`lastUsed = now`; a handle that existed before the call keeps its `Id`. -/
theorem GetConnection_refreshes_lastUsed (s : State) (ctx : Context) (now : Int) (conn : Nat)
    (h : (GetConnection s ctx now).2 = .ret (conn, none)) :
    (deref (GetConnection s ctx now).1.heap conn).map (fun c => c.lastUsed) = some now ∧
    ∀ c0, deref s.heap conn = some c0 →
      (deref (GetConnection s ctx now).1.heap conn).map (fun c => c.Id) = some c0.Id := by
  rcases GetConnection_cases s ctx now with
    ⟨e, hg⟩ | ⟨e, hg⟩ | hg | ⟨a, rest, c, -, hc, hg⟩ | ⟨s1, pn, hg⟩ | ⟨e, -, hg⟩ | ⟨-, hg⟩ |
    ⟨-, -, hg⟩
  all_goals rw [hg] at h ⊢
  all_goals simp only [Res.ret.injEq, Prod.mk.injEq, reduceCtorEq, and_false, false_and] at h
  · obtain ⟨rfl, -⟩ := h
    have ha : a < s.heap.length := (List.getElem?_eq_some.mp hc).1
    refine ⟨by simp [deref, ha], fun c0 hc0 => ?_⟩
    simp only [deref] at hc0
    rw [hc] at hc0
    cases hc0
    simp [deref, ha]
  · obtain ⟨rfl, -⟩ := h
    refine ⟨by simp [deref], fun c0 hc0 => ?_⟩
    simp [deref] at hc0

theorem GetConnection_refreshes_lastUsed_witness :
    ((GetConnection oneIdle Context.TODO 9).2 = .ret (2, none) ∧
      (deref (GetConnection oneIdle Context.TODO 9).1.heap 2).map (fun c => c.lastUsed)
        = some 9 ∧
      (deref (GetConnection oneIdle Context.TODO 9).1.heap 2).map (fun c => c.Id) = some 2) ∧
    ((GetConnection exampleStart Context.TODO 9).2 = .ret (1, none) ∧
      (deref (GetConnection exampleStart Context.TODO 9).1.heap 1).map (fun c => c.lastUsed)
        = some 9) :=
  ⟨⟨by decide,
      (GetConnection_refreshes_lastUsed oneIdle Context.TODO 9 2 (by decide)).1,
      (GetConnection_refreshes_lastUsed oneIdle Context.TODO 9 2 (by decide)).2
        { Id := 2, lastUsed := 1 } (by decide)⟩,
    ⟨by decide,
      (GetConnection_refreshes_lastUsed exampleStart Context.TODO 9 1 (by decide)).1⟩⟩

/-! ## The wait for an idle handle -/

/-- C16: in every state reached from `New` by `GetConnection` calls, `Release`
calls of checked-out handles and sweeps, each run to completion, the branch of
`GetConnection` that waits on the idle registry is never taken: no call
returns the bare context error of line 94, a call that parks has parked at the
semaphore without a permit, and a caller that obtained a permit and found the
registry empty sees `activeConns < MaxSize` and receives a newly allocated
handle. -/
theorem waitIdle_unreachable (config : PoolConfig) (s0 : State) (calls : List Call) (y : Sys)
    (ctx : Context) (now : Int) (hnew : New config = .ret s0)
    (hrun : Sys.run { st := s0, out := [] } calls = some y) :
    (∀ conn e, (GetConnection y.st ctx now).2 ≠ .ret (conn, some (.ctxErr e))) ∧
    ((GetConnection y.st ctx now).2 = .blocked →
      (GetConnection y.st ctx now).1 = pendingInc y.st) ∧
    (ctx.err = none → 0 < y.st.pool.conf.ConnectTimout → 1 ≤ permitsAvailable y.st →
      y.st.pool.idleConns.buf = [] →
      y.st.pool.activeConns < y.st.pool.conf.MaxSize ∧
      (GetConnection y.st ctx now).2 = .ret (y.st.heap.length + 1, none) ∧
      (GetConnection y.st ctx now).1.heap
        = y.st.heap ++ [{ Id := y.st.pool.activeConns + 1, lastUsed := now }]) := by
  have hI := Inv_run config calls _ y (Inv_New config s0 hnew) hrun
  rcases GetConnection_cases_Inv config y hI ctx now with
    ⟨e, hg⟩ | ⟨e, hg⟩ | hg | ⟨a, rest, c, hb, hc, hg⟩ | ⟨he, ht, hp, hb, ha0, ha, hg⟩
  · rw [hg]
    refine ⟨by simp, by simp, fun he ht hp hb => ?_⟩
    exfalso
    have hI2 := hI
    obtain ⟨h1, h2, h3, h4, h5, h6, h7, h8, h9, h10⟩ := hI2
    have ha : y.st.pool.activeConns < y.st.pool.conf.MaxSize := by
      simp only [permitsAvailable] at hp
      rw [h1]; omega
    simp only [permitsAvailable] at hp
    rw [GetConnection_mint y.st ctx now he ht hp hb h2 ha] at hg
    simp at hg
  · rw [hg]
    refine ⟨by simp, by simp, fun he ht hp hb => ?_⟩
    exfalso
    obtain ⟨h1, h2, h3, h4, h5, h6, h7, h8, h9, h10⟩ := hI
    have ha : y.st.pool.activeConns < y.st.pool.conf.MaxSize := by
      simp only [permitsAvailable] at hp
      rw [h1]; omega
    simp only [permitsAvailable] at hp
    rw [GetConnection_mint y.st ctx now he ht hp hb h2 ha] at hg
    simp at hg
  · rw [hg]
    refine ⟨by simp, fun _ => rfl, fun he ht hp hb => ?_⟩
    exfalso
    obtain ⟨h1, h2, h3, h4, h5, h6, h7, h8, h9, h10⟩ := hI
    have ha : y.st.pool.activeConns < y.st.pool.conf.MaxSize := by
      simp only [permitsAvailable] at hp
      rw [h1]; omega
    simp only [permitsAvailable] at hp
    rw [GetConnection_mint y.st ctx now he ht hp hb h2 ha] at hg
    simp at hg
  · rw [hg]
    refine ⟨by simp, by simp, fun _ _ _ hb2 => ?_⟩
    rw [hb] at hb2
    simp at hb2
  · rw [hg]
    exact ⟨by simp, by simp, fun _ _ _ _ => ⟨ha, rfl, rfl⟩⟩

theorem waitIdle_unreachable_witness :
    New exampleConfig = .ret exampleStart ∧
    Sys.run { st := exampleStart, out := [] } exampleCalls = some exampleEnd ∧
    Context.TODO.err = none ∧ 0 < exampleEnd.st.pool.conf.ConnectTimout ∧
    1 ≤ permitsAvailable exampleEnd.st ∧ exampleEnd.st.pool.idleConns.buf = [] ∧
    (exampleEnd.st.pool.activeConns < exampleEnd.st.pool.conf.MaxSize ∧
      (GetConnection exampleEnd.st Context.TODO 300).2
        = .ret (exampleEnd.st.heap.length + 1, none) ∧
      (GetConnection exampleEnd.st Context.TODO 300).1.heap
        = exampleEnd.st.heap ++ [{ Id := exampleEnd.st.pool.activeConns + 1, lastUsed := 300 }]) :=
  ⟨by decide, by decide!, by decide, by decide, by decide, by decide,
    (waitIdle_unreachable exampleConfig exampleStart exampleCalls exampleEnd Context.TODO 300
      (by decide) (by decide!)).2.2 (by decide) (by decide) (by decide) (by decide)⟩

/-! ## Identifiers of new handles -/

/-- C17: a newly allocated handle receives `Id = activeConns + 1`, the value
before the increment, which is at most `MaxSize`; under well-formed use every
such `Id` lies in `1..MaxSize`. Ids are not unique among live handles: with
`MinSize = 0` and `MaxSize = 2`, after acquire A, acquire B, release A,
acquire C, the distinct handles B and C are both checked out and both have
`Id = 2`. -/
theorem minted_Id :
    (∀ (s : State) (ctx : Context) (now : Int) (conn : Nat),
      (GetConnection s ctx now).2 = .ret (conn, none) → deref s.heap conn = none →
      deref (GetConnection s ctx now).1.heap conn
        = some { Id := s.pool.activeConns + 1, lastUsed := now } ∧
      s.pool.activeConns + 1 ≤ s.pool.conf.MaxSize) ∧
    (∀ (config : PoolConfig) (s0 : State) (calls : List Call) (y : Sys) (ctx : Context)
      (now : Int) (conn : Nat),
      New config = .ret s0 → Sys.run { st := s0, out := [] } calls = some y →
      (GetConnection y.st ctx now).2 = .ret (conn, none) → deref y.st.heap conn = none →
      1 ≤ y.st.pool.activeConns + 1 ∧ y.st.pool.activeConns + 1 ≤ config.MaxSize) ∧
    (New noIdleConfig = .ret noIdleStart ∧
      Sys.run { st := noIdleStart, out := [] } dupCalls = some dupEnd ∧
      dupEnd.out = [3, 2] ∧
      (deref dupEnd.st.heap 3).map (fun c => c.Id) = some 2 ∧
      (deref dupEnd.st.heap 2).map (fun c => c.Id) = some 2) := by
  refine ⟨?_, ?_, by decide, by decide!, by decide, by decide, by decide⟩
  · intro s ctx now conn h hnew
    rcases GetConnection_cases s ctx now with
      ⟨e, hg⟩ | ⟨e, hg⟩ | hg | ⟨a, rest, c, -, hc, hg⟩ | ⟨s1, pn, hg⟩ | ⟨e, -, hg⟩ | ⟨-, hg⟩ |
      ⟨-, ha, hg⟩
    all_goals rw [hg] at h ⊢
    all_goals simp only [Res.ret.injEq, Prod.mk.injEq, reduceCtorEq, and_false, false_and] at h
    · obtain ⟨rfl, -⟩ := h
      simp only [deref] at hnew
      rw [hc] at hnew
      cases hnew
    · obtain ⟨rfl, -⟩ := h
      exact ⟨by simp [deref], by omega⟩
  · intro config s0 calls y ctx now conn hnew0 hrun h hnew
    have hI := Inv_run config calls _ _ (Inv_New config s0 hnew0) hrun
    rcases GetConnection_cases_Inv config y hI ctx now with
      ⟨e, hg⟩ | ⟨e, hg⟩ | hg | ⟨a, rest, c, hb, hc, hg⟩ | ⟨he, ht, hp, hb, ha0, ha, hg⟩
    all_goals rw [hg] at h
    all_goals simp only [Res.ret.injEq, Prod.mk.injEq, reduceCtorEq, and_false, false_and] at h
    · obtain ⟨rfl, -⟩ := h
      simp only [deref] at hnew
      rw [hc] at hnew
      cases hnew
    · have h1 := hI.conf_eq
      rw [← h1]
      omega

theorem minted_Id_witness :
    (GetConnection exampleEnd.st Context.TODO 300).2 = .ret (3, none) ∧
    deref exampleEnd.st.heap 3 = none ∧
    (deref (GetConnection exampleEnd.st Context.TODO 300).1.heap 3
        = some { Id := exampleEnd.st.pool.activeConns + 1, lastUsed := 300 } ∧
      exampleEnd.st.pool.activeConns + 1 ≤ exampleEnd.st.pool.conf.MaxSize) ∧
    (1 ≤ exampleEnd.st.pool.activeConns + 1 ∧
      exampleEnd.st.pool.activeConns + 1 ≤ exampleConfig.MaxSize) :=
  ⟨by decide, by decide,
    minted_Id.1 exampleEnd.st Context.TODO 300 3 (by decide) (by decide),
    minted_Id.2.1 exampleConfig exampleStart exampleCalls exampleEnd Context.TODO 300 3
      (by decide) (by decide!) (by decide) (by decide)⟩

/-! ## The connect timeout -/

/-- C18: with `ConnectTimout <= 0`, for every context, `GetConnection` returns
the nil handle and an error wrapping the context's own error if it is already
done and `DeadlineExceeded` otherwise, without taking a permit and without
touching the idle registry, whatever permits and idle handles are available.
With `ConnectTimout > 0` and a live context, the wait for a permit ends only
through the caller's context: if that context never fires the call never
returns, and if it fires the error returned is the caller's. -/
theorem ConnectTimout_behaviour (s : State) (ctx : Context) (now : Int) :
    (s.pool.conf.ConnectTimout ≤ 0 →
      (GetConnection s ctx now).2
        = .ret (0, some (.couldNotGet (ctx.err.getD .DeadlineExceeded))) ∧
      (GetConnection s ctx now).1 = pendingInc s ∧
      permitsAvailable (GetConnection s ctx now).1 = permitsAvailable s ∧
      (GetConnection s ctx now).1.pool.idleConns = s.pool.idleConns) ∧
    (0 < s.pool.conf.ConnectTimout → ctx.err = none → ¬ 1 ≤ permitsAvailable s →
      (ctx.later = none → (GetConnection s ctx now).2 = .blocked) ∧
      (∀ e, ctx.later = some e →
        (GetConnection s ctx now).2 = .ret (0, some (.couldNotAcquire e)))) := by
  constructor
  · intro ht
    rcases he : ctx.err with _ | e
    · rw [GetConnection_timeout s ctx now he ht]
      exact ⟨rfl, rfl, rfl, rfl⟩
    · rw [GetConnection_cancelled s ctx now e he]
      exact ⟨rfl, rfl, rfl, rfl⟩
  · intro ht he hp
    simp only [permitsAvailable] at hp
    refine ⟨fun hl => ?_, fun e hl => ?_⟩
    · rw [GetConnection_noPermit_parks s ctx now he ht hp hl]
    · rw [GetConnection_noPermit_fires s ctx now e he ht hp hl]

theorem ConnectTimout_behaviour_witness :
    (zeroTimeoutIdle.pool.conf.ConnectTimout ≤ 0 ∧ 1 ≤ permitsAvailable zeroTimeoutIdle ∧
      zeroTimeoutIdle.pool.idleConns.buf = [2] ∧
      (GetConnection zeroTimeoutIdle Context.TODO 9).2
        = .ret (0, some (.couldNotGet (Context.TODO.err.getD .DeadlineExceeded))) ∧
      (GetConnection zeroTimeoutIdle Context.TODO 9).1 = pendingInc zeroTimeoutIdle ∧
      permitsAvailable (GetConnection zeroTimeoutIdle Context.TODO 9).1
        = permitsAvailable zeroTimeoutIdle ∧
      (GetConnection zeroTimeoutIdle Context.TODO 9).1.pool.idleConns
        = zeroTimeoutIdle.pool.idleConns) ∧
    (0 < fullPool.pool.conf.ConnectTimout ∧ ¬ 1 ≤ permitsAvailable fullPool ∧
      (GetConnection fullPool Context.TODO 9).2 = .blocked ∧
      (GetConnection fullPool deadlineCtx 9).2
        = .ret (0, some (.couldNotAcquire .DeadlineExceeded))) :=
  ⟨⟨by decide, by decide, by decide,
      (ConnectTimout_behaviour zeroTimeoutIdle Context.TODO 9).1 (by decide)⟩,
    ⟨by decide, by decide,
      ((ConnectTimout_behaviour fullPool Context.TODO 9).2 (by decide) (by decide)
        (by decide)).1 (by decide),
      ((ConnectTimout_behaviour fullPool deadlineCtx 9).2 (by decide) (by decide)
        (by decide)).2 .DeadlineExceeded (by decide)⟩⟩

end ConnPool
